import Mathlib

/-!
Verification of the task persistence and ordering engine of a kanban-style
todo-list application (Angular service `TaskService` plus its validation and
persistence helpers).

The TypeScript source is shallowly embedded as follows:

* A task is a record (`Task`); `createdAt` (a JS `Date`) is modelled by its
  epoch-millisecond value as an `Int`, since JS dates carry exactly
  millisecond precision and `toISOString`/`new Date(iso)` are mutually
  inverse at that precision.  `status` is modelled as a `String` (the
  TypeScript enum `TaskStatus` is a string enum, and stored data can in
  principle carry arbitrary status strings, which the integrity validator
  explicitly checks for).  `description` is an `Option String` (`undefined`
  is `none`).
* The service state is the in-memory collection plus a counter of
  persistence writes (`saveCount`); `saveTasks` is modelled as incrementing
  the counter.  Storage-quota failures depend on the browser environment and
  are not modelled: `checkStorageQuota` is taken to succeed.
* Operations that can `throw` return `Except String α × ServiceState`; the
  returned state is the state at the point of the throw, mirroring
  TypeScript exception semantics.  Nondeterministic inputs (`generateId`,
  `Date.now`, the cleanup cutoff date) are passed as explicit parameters.
* JS `Array.prototype.sort` is guaranteed stable; it is embedded as a stable
  insertion sort (`sortByKey`).  `forEach` loops that mutate the collection
  one task at a time are embedded as folds over the loop's snapshot.
* JS string `.trim()` is modelled by the structural `jsTrim` (covering the
  whitespace characters that occur here) and `.length` by `String.length`
  (code points rather than UTF-16 units; identical on the inputs used
  here).
-/

set_option maxHeartbeats 1000000
set_option maxRecDepth 8192

namespace Todo

/-- The three members of the `TaskStatus` string enum. -/
def statusBacklog : String := "backlog"

def statusInProgress : String := "in-progress"

def statusDone : String := "done"

/-- `Object.values(TaskStatus)`, in declaration order. -/
def statusList : List String := [statusBacklog, statusInProgress, statusDone]

/-- The `Task` interface from `task.model.ts`. -/
structure Task where
  id : String
  title : String
  description : Option String
  status : String
  createdAt : Int
  order : Int
deriving DecidableEq, Repr

/-- In-memory service state: the tasks signal plus the number of successful
persistence writes performed by `saveTasks`. -/
structure ServiceState where
  tasks : List Task
  saveCount : Nat
deriving DecidableEq, Repr

/-- `saveTasks`: serializes the collection to localStorage.  Only the fact
that one synchronous write happens is relevant to the claims, so it is
modelled as incrementing the write counter. -/
def saveTasks (st : ServiceState) : ServiceState :=
  { st with saveCount := st.saveCount + 1 }

/-- JS whitespace for `.trim()` (the characters relevant here). -/
def isJsWhitespace (c : Char) : Bool :=
  c = ' ' || c = '\t' || c = '\n' || c = '\r'

/-- JS `String.prototype.trim`: strip leading and trailing whitespace. -/
def jsTrim (s : String) : String :=
  String.mk (((s.data.dropWhile isJsWhitespace).reverse.dropWhile isJsWhitespace).reverse)

/-- Stable insertion of `a` into a list, placing it before the first element
whose key is not smaller (so equal keys keep their original relative order,
matching the guaranteed stability of `Array.prototype.sort`). -/
def insertByKey (key : α → Int) (a : α) : List α → List α
  | [] => [a]
  | b :: bs => if key b < key a then b :: insertByKey key a bs else a :: b :: bs

/-- Stable sort by an integer key, embedding `.sort((a, b) => key a - key b)`. -/
def sortByKey (key : α → Int) : List α → List α
  | [] => []
  | a :: as => insertByKey key a (sortByKey key as)

/-- `enumFromIdx n l` pairs the elements of `l` with indices `n, n+1, ...`;
`withIdx` starts from `0`, embedding the `(element, index)` pairs seen by a
JS `forEach`/`map` callback. -/
def enumFromIdx : Nat → List α → List (Nat × α)
  | _, [] => []
  | n, a :: as => (n, a) :: enumFromIdx (n + 1) as

/-- Elements of a list paired with their 0-based positions. -/
def withIdx (l : List α) : List (Nat × α) := enumFromIdx 0 l

/-- Index of the first occurrence of an element (`Array.prototype.indexOf` /
the position handed out by a sorted `forEach`); `l.length` when absent. -/
def idxOf [DecidableEq α] (a : α) : List α → Nat
  | [] => 0
  | b :: bs => if b = a then 0 else idxOf a bs + 1

/-- `getTask`: lookup by id (`find`). -/
def getTask (tid : String) (tasks : List Task) : Option Task :=
  tasks.find? (fun t => t.id == tid)

/-- `getTasksByStatus`: filter by status, sorted ascending by `order`. -/
def getTasksByStatus (s : String) (tasks : List Task) : List Task :=
  sortByKey Task.order (tasks.filter (fun t => t.status == s))

/-- `getNextOrder`: `0` for an empty partition, otherwise
`Math.max(...orders) + 1`. -/
def getNextOrder (s : String) (tasks : List Task) : Int :=
  match getTasksByStatus s tasks with
  | [] => 0
  | t :: ts => ts.foldl (fun m u => max m u.order) t.order + 1

/-- `ErrorHandlerService.validateTaskInput`: the validation used by
`createTask`.  Note the title length bound is checked on the trimmed title,
and a present-but-empty description skips the length check (it is falsy). -/
def validateTaskInput (title : String) (description : Option String) : Option String :=
  let trimmedTitle := jsTrim title
  if trimmedTitle = "" then some "Task title is required and cannot be empty"
  else if trimmedTitle.length > 128 then some "Task title cannot exceed 128 characters"
  else
    match description with
    | some d =>
        if d ≠ "" ∧ d.length > 256 then some "Task description cannot exceed 256 characters"
        else none
    | none => none

/-- `createTask`.  The generated id and the current time are passed as
parameters (`generateId()` / `new Date()` are nondeterministic). -/
def createTask (newId : String) (now : Int) (title : String) (description : Option String)
    (st : ServiceState) : Except String Task × ServiceState :=
  match validateTaskInput title description with
  | some e => (.error e, st)
  | none =>
      let newTask : Task :=
        { id := newId
          title := jsTrim title
          description := description.map jsTrim
          status := statusBacklog
          createdAt := now
          order := getNextOrder statusBacklog st.tasks }
      (.ok newTask, saveTasks { st with tasks := st.tasks ++ [newTask] })

/-- The `Partial<Omit<Task, 'id' | 'createdAt'>>` update records taken by
`updateTask` and `batchUpdateTasks`. -/
structure TaskUpdates where
  title : Option String := none
  description : Option String := none
  status : Option String := none
  order : Option Int := none
deriving DecidableEq, Repr

/-- Merging an update record into a task: `{ ...t, ...updates, title: <trimmed
if supplied>, description: <trimmed if supplied> }`. -/
def applyUpdates (t : Task) (u : TaskUpdates) : Task :=
  { t with
    status := u.status.getD t.status
    order := u.order.getD t.order
    title := match u.title with | some ti => jsTrim ti | none => t.title
    description := match u.description with | some d => some (jsTrim d) | none => t.description }

/-- The description part of the per-update validation: a supplied
description's untrimmed length must be at most 256. -/
def checkDescription (u : TaskUpdates) : Option String :=
  match u.description with
  | some d =>
      if d.length > 256 then some "Task description cannot exceed 256 characters" else none
  | none => none

/-- The per-update validation shared (verbatim) by `updateTask` and
`batchUpdateTasks`: a supplied title must be non-blank and its *untrimmed*
length at most 128, then the description check runs. -/
def validateUpdates (u : TaskUpdates) : Option String :=
  match u.title with
  | some ti =>
      if jsTrim ti = "" then some "Task title is required"
      else if ti.length > 128 then some "Task title cannot exceed 128 characters"
      else checkDescription u
  | none => checkDescription u

/-- `updateTask`: not-found check, field validation, map over the collection
updating every task with the given id, one save, return the updated task
(the source's `getTask(id)!`). -/
def updateTask (tid : String) (u : TaskUpdates) (st : ServiceState) :
    Except String Task × ServiceState :=
  match getTask tid st.tasks with
  | none => (.error "Task not found", st)
  | some _ =>
      match validateUpdates u with
      | some e => (.error e, st)
      | none =>
          let tasks' := st.tasks.map (fun t => if t.id == tid then applyUpdates t u else t)
          let st' := saveTasks { st with tasks := tasks' }
          match getTask tid tasks' with
          | some t => (.ok t, st')
          | none => (.error "Task not found", st')

/-- `deleteTask`: filter the id out; save and return `true` only if the
length shrank. -/
def deleteTask (tid : String) (st : ServiceState) : Bool × ServiceState :=
  let tasks' := st.tasks.filter (fun t => t.id != tid)
  if tasks'.length < st.tasks.length then
    (true, saveTasks { st with tasks := tasks' })
  else
    (false, { st with tasks := tasks' })

/-- Set the order of every task with the given id (the body of the
`_tasks.update(...)` calls in `reorderTasksInColumn` / `compactTaskOrders`). -/
def setOrderById (tid : String) (o : Int) (tasks : List Task) : List Task :=
  tasks.map (fun t => if t.id == tid then { t with order := o } else t)

/-- Apply a list of `(id, newOrder)` updates in sequence. -/
def applyOrderUpdates (upds : List (String × Int)) (tasks : List Task) : List Task :=
  upds.foldl (fun acc p => setOrderById p.1 p.2 acc) tasks

/-- `reorderTasksInColumn`: snapshot the column (minus the excluded id) and
bump every snapshot task whose order is `>= insertOrder` up by one.  The
source's conditional one-task updates are rendered as the filtered update
list applied in snapshot order. -/
def reorderTasksInColumn (s : String) (insertOrder : Int) (excludeId : String)
    (tasks : List Task) : List Task :=
  let column := (getTasksByStatus s tasks).filter (fun t => t.id != excludeId)
  applyOrderUpdates
    (column.filterMap (fun t => if insertOrder ≤ t.order then some (t.id, t.order + 1) else none))
    tasks

/-- `compactTaskOrders`: snapshot the column (minus the excluded id) and set
each snapshot task's order to its snapshot index, skipping tasks already in
place. -/
def compactTaskOrders (s : String) (excludeId : String) (tasks : List Task) : List Task :=
  let column := (getTasksByStatus s tasks).filter (fun t => t.id != excludeId)
  applyOrderUpdates
    ((withIdx column).filterMap (fun p =>
      if p.2.order = (p.1 : Int) then none else some (p.2.id, (p.1 : Int))))
    tasks

/-- `changeTaskStatus`: default the target order to the end of the target
column, make room there when the status changes, then update the task. -/
def changeTaskStatus (tid : String) (newStatus : String) (newOrder : Option Int)
    (st : ServiceState) : Except String Task × ServiceState :=
  match getTask tid st.tasks with
  | none => (.error "Task not found", st)
  | some task =>
      let targetOrder := newOrder.getD (getNextOrder newStatus st.tasks)
      let st1 :=
        if task.status ≠ newStatus then
          { st with tasks := reorderTasksInColumn newStatus targetOrder tid st.tasks }
        else st
      updateTask tid { status := some newStatus, order := some targetOrder } st1

/-- `reorderTask`: make room in the task's own column, then update its order. -/
def reorderTask (tid : String) (newOrder : Int) (st : ServiceState) :
    Except String Task × ServiceState :=
  match getTask tid st.tasks with
  | none => (.error "Task not found", st)
  | some task =>
      let st1 := { st with tasks := reorderTasksInColumn task.status newOrder tid st.tasks }
      updateTask tid { order := some newOrder } st1

/-- `moveTask`: on a cross-column move, compact the source column and make
room in the destination; otherwise just make room; then update the task. -/
def moveTask (tid : String) (newStatus : String) (newOrder : Int) (st : ServiceState) :
    Except String Task × ServiceState :=
  match getTask tid st.tasks with
  | none => (.error "Task not found", st)
  | some task =>
      let compacted :=
        if task.status ≠ newStatus then compactTaskOrders task.status tid st.tasks
        else st.tasks
      let st1 := { st with tasks := reorderTasksInColumn newStatus newOrder tid compacted }
      updateTask tid { status := some newStatus, order := some newOrder } st1

/-- Placeholder for the source's non-null assertion `this.getTask(id)!` on
ids that are known to be present. -/
def fallbackTask : Task :=
  { id := "", title := "", description := none, status := statusBacklog, createdAt := 0, order := 0 }

/-- Replace the first task with the given id (`findIndex` + assignment in
`batchUpdateTasks`); no change when the id is absent. -/
def replaceFirstById (tid : String) (u : TaskUpdates) : List Task → List Task
  | [] => []
  | t :: ts => if t.id == tid then applyUpdates t u :: ts else t :: replaceFirstById tid u ts

/-- `batchUpdateTasks`: check that every referenced id exists, then validate
every update, and only then apply all updates and save once.  Both checks
throw before any mutation, so a failing batch leaves the state untouched.
(The source's rollback branch only fires on a storage failure during the
save, which is not modelled.) -/
def batchUpdateTasks (upds : List (String × TaskUpdates)) (st : ServiceState) :
    Except String (List Task) × ServiceState :=
  match upds.find? (fun p => (getTask p.1 st.tasks).isNone) with
  | some p => (.error ("Task not found: " ++ p.1), st)
  | none =>
      match upds.findSome? (fun p => validateUpdates p.2) with
      | some e => (.error e, st)
      | none =>
          let tasks' := upds.foldl (fun acc p => replaceFirstById p.1 p.2 acc) st.tasks
          let st' := saveTasks { st with tasks := tasks' }
          (.ok (upds.map (fun p => (getTask p.1 tasks').getD fallbackTask)), st')

/-- The drag-and-drop operation descriptor (the `type` tag and the timing
fields only feed logging/metrics and are not modelled). -/
structure DragDropOp where
  taskId : String
  newStatus : Option String
  newOrder : Int
  affectedTasks : List (String × Int)
deriving DecidableEq, Repr

/-- Result of `handleDragDropOperation` (minus the wall-clock duration). -/
structure DragDropResult where
  success : Bool
  error : Option String
deriving DecidableEq, Repr

/-- `handleDragDropOperation`: build one batch from the moved task plus every
affected sibling and delegate to `batchUpdateTasks`, converting a thrown
error into a failure result.  The `if (operation.newStatus)` truthiness test
means an absent or empty-string status is not applied. -/
def handleDragDropOperation (op : DragDropOp) (st : ServiceState) :
    DragDropResult × ServiceState :=
  let mainStatus := match op.newStatus with
    | some s => if s = "" then none else some s
    | none => none
  let mainUpdate : TaskUpdates := { order := some op.newOrder, status := mainStatus }
  let upds := (op.taskId, mainUpdate) ::
    op.affectedTasks.filterMap (fun p =>
      if p.1 == op.taskId then none
      else some (p.1, ({ order := some p.2 } : TaskUpdates)))
  match batchUpdateTasks upds st with
  | (.ok _, st') => ({ success := true, error := none }, st')
  | (.error e, st') => ({ success := false, error := some e }, st')

/-- Report type of `validateTaskIntegrity`. -/
structure IntegrityReport where
  isValid : Bool
  errors : List String
deriving DecidableEq, Repr

/-- The duplicate-id check: ids whose first occurrence is at an earlier
index, joined into a single error when any exist. -/
def duplicateIdErrors (tasks : List Task) : List String :=
  let ids := tasks.map Task.id
  let dups := ((withIdx ids).filter (fun p => idxOf p.2 ids ≠ p.1)).map Prod.snd
  if dups.isEmpty then [] else ["Duplicate task IDs found: " ++ String.intercalate ", " dups]

/-- The per-status order check: sort each partition by order and flag every
task whose order differs from its sorted index. -/
def orderErrors (tasks : List Task) : List String :=
  statusList.flatMap (fun s =>
    (withIdx (getTasksByStatus s tasks)).filterMap (fun p =>
      if p.2.order ≠ (p.1 : Int) then
        some ("Task " ++ p.2.id ++ " has incorrect order " ++ toString p.2.order ++
          ", expected " ++ toString p.1 ++ " in status " ++ s)
      else none))

/-- The per-task property checks (missing id, blank/oversized title,
oversized description, status outside the enum).  A present-but-empty
description is falsy in JS and skips the length check. -/
def propertyErrors (tasks : List Task) : List String :=
  tasks.flatMap (fun t =>
    (if t.id = "" then ["Task found without ID"] else []) ++
    (if t.title = "" ∨ jsTrim t.title = "" then ["Task " ++ t.id ++ " has empty title"] else []) ++
    (if t.title ≠ "" ∧ t.title.length > 128 then
      ["Task " ++ t.id ++ " title exceeds 128 characters"] else []) ++
    (match t.description with
     | some d =>
        if d ≠ "" ∧ d.length > 256 then
          ["Task " ++ t.id ++ " description exceeds 256 characters"] else []
     | none => []) ++
    (if statusList.contains t.status then []
     else ["Task " ++ t.id ++ " has invalid status: " ++ t.status]))

/-- `validateTaskIntegrity`: all three checks in source order; valid iff no
errors. -/
def validateTaskIntegrity (tasks : List Task) : IntegrityReport :=
  let errors := duplicateIdErrors tasks ++ orderErrors tasks ++ propertyErrors tasks
  { isValid := errors.isEmpty, errors := errors }

/-- The salvageability filter of `repairTaskIntegrity`: truthy id and title,
non-blank trimmed title, status in the enum. -/
def isSalvageable (t : Task) : Bool :=
  t.id != "" && t.title != "" && jsTrim t.title != "" && statusList.contains t.status

/-- The pure collection transform performed by `repairTaskIntegrity`: drop
unsalvageable tasks, then renumber each status partition `0..N-1` by the
stable order-sort.  The source renumbers the task objects in place (by
object identity), which is rendered positionally: the task at position `i`
of the filtered list receives the index of `(i, task)` in the stable sort of
its status partition of the position-tagged list. -/
def repairTasks (tasks : List Task) : List Task :=
  let valid := tasks.filter isSalvageable
  (withIdx valid).map (fun p =>
    { p.2 with order :=
        ((idxOf p (sortByKey (fun q => q.2.order)
            ((withIdx valid).filter (fun q => q.2.status == p.2.status))) : Nat) : Int) })

/-- `repairTaskIntegrity`: repair the collection, save once, report success
(nothing in the modelled repair can throw). -/
def repairTaskIntegrity (st : ServiceState) : Bool × ServiceState :=
  (true, saveTasks { st with tasks := repairTasks st.tasks })

/-- One column pass of `reorderAllColumns`: walk the sorted snapshot and
`updateTask` every task whose order differs from its index (each such update
performs its own save). -/
def fixColumn (pairs : List (Nat × Task)) (st : ServiceState) :
    Except String Unit × ServiceState :=
  match pairs with
  | [] => (.ok (), st)
  | (i, t) :: rest =>
      if t.order ≠ (i : Int) then
        match updateTask t.id { order := some (i : Int) } st with
        | (.ok _, st') => fixColumn rest st'
        | (.error e, st') => (.error e, st')
      else fixColumn rest st

/-- `reorderAllColumns`: fix each status column in enum order; a thrown
error propagates. -/
def reorderColumnsFrom : List String → ServiceState → Except String Unit × ServiceState
  | [], st => (.ok (), st)
  | s :: rest, st =>
      match fixColumn (withIdx (getTasksByStatus s st.tasks)) st with
      | (.ok _, st') => reorderColumnsFrom rest st'
      | (.error e, st') => (.error e, st')

/-- `reorderAllColumns` over all statuses. -/
def reorderAllColumns (st : ServiceState) : Except String Unit × ServiceState :=
  reorderColumnsFrom statusList st

/-- `cleanupOldTasks`: drop Done tasks whose `createdAt` is not after the
cutoff; when anything was removed, compact all columns and save.  The cutoff
date (now minus `daysOld` days) is passed in directly; the `spaceSaved` byte
estimate only feeds logging and is not modelled.  A thrown error is caught
and reported as zero removals. -/
def cleanupOldTasks (cutoff : Int) (st : ServiceState) : Nat × ServiceState :=
  let tasksToKeep := st.tasks.filter (fun t => t.status != statusDone || t.createdAt > cutoff)
  let removedCount := st.tasks.length - tasksToKeep.length
  if removedCount > 0 then
    match reorderAllColumns { st with tasks := tasksToKeep } with
    | (.ok _, st') => (removedCount, saveTasks st')
    | (.error _, st') => (0, st')
  else (removedCount, st)

/-! ## Persistence: JSON serialization and parsing

`saveTasks` writes `JSON.stringify` of the task records (dates as ISO-8601
strings) and `loadTasks` reads them back with `JSON.parse`.  The stored
bytes are modelled up to the JSON tree: `JSON.stringify`/`JSON.parse` are
mutually inverse on trees, and the ISO-8601 date string is modelled by the
epoch-millisecond value it round-trips to.  A real parser over the raw
characters (covering the JSON subset the store produces: null, booleans,
integers, strings with the common escapes, arrays, objects) models
`JSON.parse`'s success/failure on arbitrary stored bytes. -/

/-- JSON trees. -/
inductive Json where
  | null
  | bool (b : Bool)
  | num (n : Int)
  | str (s : String)
  | arr (items : List Json)
  | obj (fields : List (String × Json))
deriving Repr

/-- Drop leading JSON whitespace. -/
def skipWs : List Char → List Char
  | [] => []
  | c :: cs => if c = ' ' ∨ c = '\n' ∨ c = '\t' ∨ c = '\r' then skipWs cs else c :: cs

/-- The common single-character string escapes. -/
def escapeChar (c : Char) : Option Char :=
  if c = '"' then some '"'
  else if c = '\\' then some '\\'
  else if c = '/' then some '/'
  else if c = 'n' then some '\n'
  else if c = 't' then some '\t'
  else if c = 'r' then some '\r'
  else if c = 'b' then some (Char.ofNat 8)
  else if c = 'f' then some (Char.ofNat 12)
  else none

/-- Parse the body of a string literal up to the closing quote. -/
def parseStringChars : List Char → Option (List Char × List Char)
  | [] => none
  | c :: rest =>
      if c = '"' then some ([], rest)
      else if c = '\\' then
        match rest with
        | [] => none
        | e :: rest' =>
            match escapeChar e with
            | some ec => (parseStringChars rest').map (fun p => (ec :: p.1, p.2))
            | none => none
      else (parseStringChars rest).map (fun p => (c :: p.1, p.2))

/-- Accumulate decimal digits. -/
def parseDigitsAux : List Char → Nat → Nat × List Char
  | [], acc => (acc, [])
  | c :: cs, acc =>
      if c.isDigit then parseDigitsAux cs (acc * 10 + (c.toNat - 48)) else (acc, c :: cs)

/-- Parse an (integer) JSON number with optional leading minus. -/
def parseNumber : List Char → Option (Int × List Char)
  | [] => none
  | '-' :: cs =>
      match cs with
      | [] => none
      | c :: cs' =>
          if c.isDigit then
            let p := parseDigitsAux cs' (c.toNat - 48)
            some (-(p.1 : Int), p.2)
          else none
  | c :: cs =>
      if c.isDigit then
        let p := parseDigitsAux cs (c.toNat - 48)
        some ((p.1 : Int), p.2)
      else none

mutual

/-- Fueled recursive-descent parser for a JSON value. -/
def parseValue : Nat → List Char → Option (Json × List Char)
  | 0, _ => none
  | fuel + 1, input =>
    match skipWs input with
    | [] => none
    | c :: rest =>
      if c = 'n' then
        match rest with
        | 'u' :: 'l' :: 'l' :: r => some (.null, r)
        | _ => none
      else if c = 't' then
        match rest with
        | 'r' :: 'u' :: 'e' :: r => some (.bool true, r)
        | _ => none
      else if c = 'f' then
        match rest with
        | 'a' :: 'l' :: 's' :: 'e' :: r => some (.bool false, r)
        | _ => none
      else if c = '"' then
        match parseStringChars rest with
        | some (cs, r) => some (.str (String.mk cs), r)
        | none => none
      else if c = '[' then
        match skipWs rest with
        | ']' :: r => some (.arr [], r)
        | r2 =>
          match parseArrayItems fuel r2 with
          | some (items, r) => some (.arr items, r)
          | none => none
      else if c = '{' then
        match skipWs rest with
        | '}' :: r => some (.obj [], r)
        | r2 =>
          match parseObjectItems fuel r2 with
          | some (fields, r) => some (.obj fields, r)
          | none => none
      else
        match parseNumber (c :: rest) with
        | some (n, r) => some (.num n, r)
        | none => none

/-- Parse one-or-more comma-separated array items up to `]`. -/
def parseArrayItems : Nat → List Char → Option (List Json × List Char)
  | 0, _ => none
  | fuel + 1, input =>
    match parseValue fuel input with
    | some (j, r) =>
      match skipWs r with
      | ',' :: r2 =>
        match parseArrayItems fuel r2 with
        | some (items, r3) => some (j :: items, r3)
        | none => none
      | ']' :: r2 => some ([j], r2)
      | _ => none
    | none => none

/-- Parse one-or-more comma-separated object entries up to the closing
brace. -/
def parseObjectItems : Nat → List Char → Option (List (String × Json) × List Char)
  | 0, _ => none
  | fuel + 1, input =>
    match skipWs input with
    | '"' :: r =>
      match parseStringChars r with
      | some (key, r2) =>
        match skipWs r2 with
        | ':' :: r3 =>
          match parseValue fuel r3 with
          | some (v, r4) =>
            match skipWs r4 with
            | ',' :: r5 =>
              match parseObjectItems fuel r5 with
              | some (fields, r6) => some ((String.mk key, v) :: fields, r6)
              | none => none
            | '}' :: r5 => some ([(String.mk key, v)], r5)
            | _ => none
          | none => none
        | _ => none
      | none => none
    | _ => none

end

/-- `JSON.parse` on the stored bytes: parse one value consuming the whole
input (trailing whitespace aside), failing on anything else. -/
def parseJson (s : String) : Option Json :=
  match parseValue (s.length + 1) s.toList with
  | some (j, rest) => if (skipWs rest).isEmpty then some j else none
  | none => none

/-- The record written per task by `saveTasks`:
`{ ...task, createdAt: task.createdAt.toISOString() }`, with
`JSON.stringify` omitting an `undefined` description.  The ISO date string
is modelled by its millisecond value. -/
def taskToJson (t : Task) : Json :=
  .obj ([("id", Json.str t.id), ("title", Json.str t.title)] ++
    (match t.description with | some d => [("description", Json.str d)] | none => []) ++
    [("status", Json.str t.status), ("createdAt", Json.num t.createdAt),
     ("order", Json.num t.order)])

/-- The JSON array written by `saveTasks`. -/
def serializeTasks (tasks : List Task) : Json := .arr (tasks.map taskToJson)

/-- Field access on a JSON object. -/
def jsonField (j : Json) (k : String) : Option Json :=
  match j with
  | .obj fields => fields.lookup k
  | _ => none

/-- A field read as a string. -/
def jsonStr : Option Json → Option String
  | some (.str s) => some s
  | _ => none

/-- A field read as a number. -/
def jsonNum : Option Json → Option Int
  | some (.num n) => some n
  | _ => none

/-- One loaded task: `{ ...taskData, createdAt: new Date(taskData.createdAt) }`.
JS spreads whatever fields are present; fields that are absent or of the
wrong shape would surface as `undefined`-valued junk, which the typed model
renders with defaults (the claims settled here never rely on those
defaults). -/
def jsonToTask (j : Json) : Task :=
  { id := (jsonStr (jsonField j "id")).getD ""
    title := (jsonStr (jsonField j "title")).getD ""
    description := jsonStr (jsonField j "description")
    status := (jsonStr (jsonField j "status")).getD ""
    createdAt := (jsonNum (jsonField j "createdAt")).getD 0
    order := (jsonNum (jsonField j "order")).getD 0 }

/-- `tasksData.map(...)` in `loadTasks`: mapping over a non-array throws a
`TypeError` (caught by `loadTasks`), modelled as `none`. -/
def jsonToTasks : Json → Option (List Task)
  | .arr items => some (items.map jsonToTask)
  | _ => none

/-- `loadTasks` from the raw stored bytes, starting (as at service
construction) from the empty collection: absent key, unparseable bytes or a
non-array value all leave the collection empty; the `try/catch` means no
exception ever escapes (totality of this function). -/
def loadTasksFromStored (stored : Option String) : List Task :=
  match stored with
  | none => []
  | some s =>
    match parseJson s with
    | some j => (jsonToTasks j).getD []
    | none => []

/-! ## Specification-side predicates -/

/-- The order values of the tasks of one status, sorted ascending. -/
def ordersOfStatus (s : String) (tasks : List Task) : List Int :=
  (getTasksByStatus s tasks).map Task.order

/-- The spec's order-contiguity invariant for one status: the sorted order
values are exactly `0, 1, ..., N-1`. -/
def contiguousOrders (s : String) (tasks : List Task) : Prop :=
  ordersOfStatus s tasks =
    (List.range (tasks.filter (fun t => t.status == s)).length).map (fun i : Nat => (i : Int))

instance (s : String) (tasks : List Task) : Decidable (contiguousOrders s tasks) := by
  unfold contiguousOrders
  exact inferInstance

/-- `getTask` as a service call: a pure read of the signal, returning the
state untouched. -/
def getTaskOp (tid : String) (st : ServiceState) : Option Task × ServiceState :=
  (getTask tid st.tasks, st)

/-- `getTasksByStatus` as a service call: a pure read. -/
def getTasksByStatusOp (s : String) (st : ServiceState) : List Task × ServiceState :=
  (getTasksByStatus s st.tasks, st)

/-- `validateTaskIntegrity` as a service call: a pure read. -/
def validateTaskIntegrityOp (st : ServiceState) : IntegrityReport × ServiceState :=
  (validateTaskIntegrity st.tasks, st)

/-- The collection after a cross-column move as the spec describes it: the
moved task gets the new status and order; the remaining source-partition
tasks are renumbered `0..N-1` in their existing relative (order-sorted)
sequence; destination tasks at or above the insertion point shift up by
one; everything else is untouched.  Written from the spec's words, to be
compared with `moveTask`. -/
def moveTaskSpecTasks (tasks : List Task) (tid : String) (newStatus : String)
    (newOrder : Int) (t : Task) : List Task :=
  tasks.map (fun u =>
    if u.id = tid then { u with status := newStatus, order := newOrder }
    else if u.status = t.status then
      { u with order :=
          ((idxOf u ((getTasksByStatus t.status tasks).filter (fun v => v.id != tid)) : Nat) : Int) }
    else if u.status = newStatus ∧ newOrder ≤ u.order then { u with order := u.order + 1 }
    else u)

/-- The pointwise effect of `compactTaskOrders` on a collection with unique
ids: a task of the compacted column (other than the excluded one) receives
its index in the order-sorted column snapshot; everything else is untouched
(established in `compactTaskOrders_eq_map`). -/
def compactMapFn (s : String) (ex : String) (tasks : List Task) (u : Task) : Task :=
  if u.status = s ∧ u.id ≠ ex then
    { u with order :=
        ((idxOf u ((getTasksByStatus s tasks).filter (fun t => t.id != ex)) : Nat) : Int) }
  else u

/-- The pointwise effect of `reorderTasksInColumn` on a collection with
unique ids: a task of the column (other than the excluded one) at or above
the insertion point shifts up by one (established in
`reorderTasksInColumn_eq_map`). -/
def reorderMapFn (s : String) (insertOrder : Int) (ex : String) (u : Task) : Task :=
  if u.status = s ∧ u.id ≠ ex ∧ insertOrder ≤ u.order then { u with order := u.order + 1 }
  else u

/-- The pointwise effect of the collection update inside `updateTask`. -/
def updateMapFn (tid : String) (upd : TaskUpdates) (u : Task) : Task :=
  if u.id == tid then applyUpdates u upd else u

/-! ## Helper lemmas -/

theorem validateUpdates_isSome_of_bad {u : TaskUpdates}
    (h : (∃ ti, u.title = some ti ∧ (jsTrim ti = "" ∨ 128 < ti.length)) ∨
         (∃ d, u.description = some d ∧ 256 < d.length)) :
    ∃ e, validateUpdates u = some e := by
  rcases h with ⟨ti, hti, hbad⟩ | ⟨d, hd, hlen⟩
  · rcases hbad with h1 | h2
    · exact ⟨"Task title is required", by simp [validateUpdates, hti, h1]⟩
    · by_cases h0 : jsTrim ti = ""
      · exact ⟨"Task title is required", by simp [validateUpdates, hti, h0]⟩
      · exact ⟨"Task title cannot exceed 128 characters",
          by simp [validateUpdates, hti, h0, h2]⟩
  · have hdesc : checkDescription u = some "Task description cannot exceed 256 characters" := by
      simp [checkDescription, hd, hlen]
    cases hti : u.title with
    | none => exact ⟨"Task description cannot exceed 256 characters",
        by simp [validateUpdates, hti, hdesc]⟩
    | some ti =>
      by_cases h0 : jsTrim ti = ""
      · exact ⟨"Task title is required", by simp [validateUpdates, hti, h0]⟩
      · by_cases h1 : 128 < ti.length
        · exact ⟨"Task title cannot exceed 128 characters",
            by simp [validateUpdates, hti, h0, h1]⟩
        · exact ⟨"Task description cannot exceed 256 characters",
            by simp [validateUpdates, hti, h0, h1, hdesc]⟩

theorem findSome?_isSome_of_mem {f : α → Option β} {l : List α} {a : α}
    (ha : a ∈ l) (hf : (f a).isSome) : (l.findSome? f).isSome := by
  induction l with
  | nil => cases ha
  | cons b bs ih =>
    rw [List.findSome?_cons]
    cases hfb : f b with
    | some v => simp
    | none =>
      rcases List.mem_cons.mp ha with rfl | hmem
      · rw [hfb] at hf; cases hf
      · exact ih hmem

/-! ## Claim theorems -/

/-- C2 (atomicity of `batchUpdateTasks`): whenever some entry of the update
list references an id that is not in the collection, or supplies a title
that is empty/whitespace-only or longer than 128 characters, or supplies a
description longer than 256 characters, the call returns an error and the
service state — every field of every task, and the persistence-write
counter — is exactly the pre-call state. -/
theorem C2_batchUpdate_atomicity (upds : List (String × TaskUpdates)) (st : ServiceState)
    (h : ∃ p ∈ upds, getTask p.1 st.tasks = none ∨
      (∃ ti, p.2.title = some ti ∧ (jsTrim ti = "" ∨ 128 < ti.length)) ∨
      (∃ d, p.2.description = some d ∧ 256 < d.length)) :
    ∃ e, batchUpdateTasks upds st = (.error e, st) := by
  unfold batchUpdateTasks
  cases hfind : upds.find? (fun p => (getTask p.1 st.tasks).isNone) with
  | some q => exact ⟨_, rfl⟩
  | none =>
    obtain ⟨p, hp, hbad⟩ := h
    have hpres : getTask p.1 st.tasks ≠ none := by
      intro hnone
      have := List.find?_eq_none.mp hfind p hp
      simp [hnone] at this
    have hfields : (∃ ti, p.2.title = some ti ∧ (jsTrim ti = "" ∨ 128 < ti.length)) ∨
        (∃ d, p.2.description = some d ∧ 256 < d.length) := by
      rcases hbad with hmiss | hf | hf
      · exact absurd hmiss hpres
      · exact Or.inl hf
      · exact Or.inr hf
    obtain ⟨e, he⟩ := validateUpdates_isSome_of_bad hfields
    have hsome : (upds.findSome? (fun p => validateUpdates p.2)).isSome :=
      findSome?_isSome_of_mem hp (by simp [he])
    cases hval : upds.findSome? (fun p => validateUpdates p.2) with
    | none => rw [hval] at hsome; cases hsome
    | some e' => exact ⟨e', rfl⟩

/-- Witness for C2: a batch whose only entry references the absent id
`"ghost"` fails and leaves a one-task state untouched. -/
theorem C2_batchUpdate_atomicity_witness :
    ∃ e, batchUpdateTasks [("ghost", {})]
        { tasks := [{ id := "A", title := "ta", description := none, status := statusBacklog,
                      createdAt := 0, order := 0 }], saveCount := 0 } =
      (.error e,
        { tasks := [{ id := "A", title := "ta", description := none, status := statusBacklog,
                      createdAt := 0, order := 0 }], saveCount := 0 }) :=
  C2_batchUpdate_atomicity _ _ ⟨("ghost", {}), by simp, Or.inl (by decide)⟩

/-- C5 (failure atomicity of `createTask`): a title that trims to empty or
whose trimmed length exceeds 128 (the data model counts title characters
after trimming), or a description longer than 256 characters, makes
`createTask` fail with a validation error and return the state — every
task and the persistence-write counter — exactly as it was. -/
theorem C5_createTask_failure_atomicity (newId : String) (now : Int) (title : String)
    (description : Option String) (st : ServiceState)
    (h : jsTrim title = "" ∨ 128 < (jsTrim title).length ∨
      ∃ d, description = some d ∧ 256 < d.length) :
    ∃ e, createTask newId now title description st = (.error e, st) := by
  have hv : ∃ e, validateTaskInput title description = some e := by
    rcases h with h1 | h2 | ⟨d, hd, hlen⟩
    · exact ⟨"Task title is required and cannot be empty", by simp [validateTaskInput, h1]⟩
    · by_cases h0 : jsTrim title = ""
      · exact ⟨"Task title is required and cannot be empty", by simp [validateTaskInput, h0]⟩
      · exact ⟨"Task title cannot exceed 128 characters", by simp [validateTaskInput, h0, h2]⟩
    · have hne : d ≠ "" := by
        intro hd0
        rw [hd0] at hlen
        simp at hlen
      by_cases h0 : jsTrim title = ""
      · exact ⟨"Task title is required and cannot be empty", by simp [validateTaskInput, h0]⟩
      · by_cases h2 : 128 < (jsTrim title).length
        · exact ⟨"Task title cannot exceed 128 characters", by simp [validateTaskInput, h0, h2]⟩
        · exact ⟨"Task description cannot exceed 256 characters",
            by simp [validateTaskInput, h0, h2, hd, hne, hlen]⟩
  obtain ⟨e, he⟩ := hv
  exact ⟨e, by unfold createTask; rw [he]⟩

/-- Witness for C5: creating a task with a 129-character title on the empty
collection fails and the collection stays empty. -/
theorem C5_createTask_failure_witness :
    ∃ e, createTask "w" 0 (String.mk (List.replicate 129 'x')) none
        { tasks := [], saveCount := 0 } = (.error e, { tasks := [], saveCount := 0 }) :=
  C5_createTask_failure_atomicity "w" 0 _ none _ (Or.inr (Or.inl (by decide)))

/-- C6 counterexample: `createTask` called with the empty-string description
produces a task whose description is the *present* empty string, not an
absent description as the claim states. -/
theorem C6_empty_description_counterexample :
    (createTask "c" 0 "T" (some "") { tasks := [], saveCount := 0 }).1 =
      .ok { id := "c", title := "T", description := some "", status := statusBacklog,
            createdAt := 0, order := 0 } ∧
    (some "" : Option String) ≠ none := by
  exact ⟨rfl, by decide⟩

/-- C6 as amended: the created task's description is the trimmed supplied
description whenever one is supplied — in particular an empty or
whitespace-only description yields a present empty string — and the
description is absent exactly when the argument was omitted. -/
theorem C6_description_normalization (newId : String) (now : Int) (title : String)
    (d : Option String) (st : ServiceState) (task : Task) (st' : ServiceState)
    (h : createTask newId now title d st = (.ok task, st')) :
    task.description = d.map jsTrim := by
  unfold createTask at h
  cases hv : validateTaskInput title d with
  | some e => rw [hv] at h; cases h
  | none =>
    rw [hv] at h
    cases h
    rfl

/-- Witness for C6: the concrete empty-description creation, via the amended
theorem. -/
theorem C6_description_normalization_witness :
    Task.description
        { id := "c", title := "T", description := some "", status := statusBacklog,
          createdAt := 0, order := 0 } =
      Option.map jsTrim (some "") :=
  C6_description_normalization "c" 0 "T" (some "") { tasks := [], saveCount := 0 } _ _ rfl

/-- C9 (persistence round-trip): deserializing the JSON written for any task
collection returns exactly that collection — ids, titles, descriptions
(including their presence/absence), statuses, orders and the
millisecond-precision creation timestamps are all preserved. -/
theorem C9_persistence_round_trip (tasks : List Task) :
    jsonToTasks (serializeTasks tasks) = some tasks := by
  have hone : ∀ t : Task, jsonToTask (taskToJson t) = t := by
    intro t
    obtain ⟨tid, ttitle, tdesc, tstatus, tcreated, torder⟩ := t
    cases tdesc <;> rfl
  simp only [serializeTasks, jsonToTasks, List.map_map]
  congr 1
  calc (tasks.map (jsonToTask ∘ taskToJson)) = tasks.map id := by
        apply List.map_congr_left
        intro t _
        exact hone t
    _ = tasks := List.map_id tasks

/-- C10 (`load` never throws): loading is a total function of the stored
bytes; an absent key, bytes that do not parse as JSON (in particular the
bytes `"not json"`), or a parsed value that is not an array all yield the
empty collection, and a parsed array yields a task list. -/
theorem C10_load_never_throws :
    loadTasksFromStored none = [] ∧
    loadTasksFromStored (some "not json") = [] ∧
    (∀ s, parseJson s = none → loadTasksFromStored (some s) = []) ∧
    (∀ s items, parseJson s = some (.arr items) →
      loadTasksFromStored (some s) = items.map jsonToTask) := by
  refine ⟨rfl, by rfl, ?_, ?_⟩
  · intro s hs
    simp only [loadTasksFromStored]
    rw [hs]
  · intro s items hs
    simp only [loadTasksFromStored]
    rw [hs]
    rfl

/-- Witness for C10: a stored array of one (malformed) record still loads as
a one-element task list, via the parsed-array clause. -/
theorem C10_load_never_throws_witness :
    loadTasksFromStored (some "[1]") = [jsonToTask (.num 1)] :=
  C10_load_never_throws.2.2.2 "[1]" [.num 1] (by rfl)

/-! ## Sorting lemmas -/

theorem insertByKey_perm (key : α → Int) (a : α) (l : List α) :
    List.Perm (insertByKey key a l) (a :: l) := by
  induction l with
  | nil => exact List.Perm.refl _
  | cons b bs ih =>
    unfold insertByKey
    by_cases h : key b < key a
    · rw [if_pos h]
      exact (List.Perm.cons b ih).trans (List.Perm.swap a b bs)
    · rw [if_neg h]

theorem sortByKey_perm (key : α → Int) (l : List α) : List.Perm (sortByKey key l) l := by
  induction l with
  | nil => exact List.Perm.refl _
  | cons a as ih => exact (insertByKey_perm key a _).trans (List.Perm.cons a ih)

theorem insertByKey_sorted (key : α → Int) (a : α) {l : List α}
    (h : l.Sorted (fun x y => key x ≤ key y)) :
    (insertByKey key a l).Sorted (fun x y => key x ≤ key y) := by
  induction l with
  | nil => simp [insertByKey]
  | cons b bs ih =>
    rw [List.sorted_cons] at h
    obtain ⟨hb, hbs⟩ := h
    unfold insertByKey
    by_cases hk : key b < key a
    · rw [if_pos hk, List.sorted_cons]
      refine ⟨?_, ih hbs⟩
      intro c hc
      rcases List.mem_cons.mp ((insertByKey_perm key a bs).mem_iff.mp hc) with rfl | hcbs
      · exact le_of_lt hk
      · exact hb c hcbs
    · rw [if_neg hk, List.sorted_cons]
      refine ⟨?_, List.sorted_cons.mpr ⟨hb, hbs⟩⟩
      intro c hc
      rcases List.mem_cons.mp hc with rfl | hcbs
      · exact le_of_not_lt hk
      · exact le_trans (le_of_not_lt hk) (hb c hcbs)

theorem sortByKey_sorted (key : α → Int) (l : List α) :
    (sortByKey key l).Sorted (fun x y => key x ≤ key y) := by
  induction l with
  | nil => simp [sortByKey]
  | cons a as ih => exact insertByKey_sorted key a ih

theorem sortByKey_nodup (key : α → Int) {l : List α} (h : l.Nodup) :
    (sortByKey key l).Nodup :=
  (sortByKey_perm key l).nodup_iff.mpr h

theorem insertByKey_map (key : α → Int) (f : β → α) (b : β) (l : List β) :
    insertByKey key (f b) (l.map f) = (insertByKey (fun x => key (f x)) b l).map f := by
  induction l with
  | nil => rfl
  | cons c cs ih =>
    show insertByKey key (f b) (f c :: cs.map f) = _
    unfold insertByKey
    by_cases h : key (f c) < key (f b)
    · rw [if_pos h, if_pos h, ih]
      rfl
    · rw [if_neg h, if_neg h]
      rfl

theorem sortByKey_map (key : α → Int) (f : β → α) (l : List β) :
    sortByKey key (l.map f) = (sortByKey (fun x => key (f x)) l).map f := by
  induction l with
  | nil => rfl
  | cons b bs ih =>
    show insertByKey key (f b) (sortByKey key (bs.map f)) = _
    rw [ih, insertByKey_map]
    rfl

/-! ## Position-tagging lemmas -/

theorem enumFromIdx_map_snd (n : Nat) (l : List α) :
    (enumFromIdx n l).map Prod.snd = l := by
  induction l generalizing n with
  | nil => rfl
  | cons a as ih => simp [enumFromIdx, ih]

theorem withIdx_map_snd (l : List α) : (withIdx l).map Prod.snd = l :=
  enumFromIdx_map_snd 0 l

theorem enumFromIdx_length (n : Nat) (l : List α) :
    (enumFromIdx n l).length = l.length := by
  induction l generalizing n with
  | nil => rfl
  | cons a as ih => simp [enumFromIdx, ih]

theorem withIdx_length (l : List α) : (withIdx l).length = l.length :=
  enumFromIdx_length 0 l

theorem fst_lt_of_mem_enumFromIdx {n : Nat} {l : List α} {p : Nat × α}
    (hp : p ∈ enumFromIdx n l) : n ≤ p.1 ∧ p.1 - n < l.length := by
  induction l generalizing n with
  | nil => cases hp
  | cons a as ih =>
    rcases List.mem_cons.mp hp with rfl | hmem
    · simp
    · obtain ⟨h1, h2⟩ := ih hmem
      constructor
      · omega
      · simp only [List.length_cons]
        omega

theorem enumFromIdx_map_fst (n : Nat) (l : List α) :
    (enumFromIdx n l).map Prod.fst = List.range' n l.length := by
  induction l generalizing n with
  | nil => rfl
  | cons a as ih => simp [enumFromIdx, List.range', ih]

theorem withIdx_nodup (l : List α) : (withIdx l).Nodup := by
  have h := List.nodup_range' (s := 0) (n := l.length)
  rw [← enumFromIdx_map_fst 0 l] at h
  exact h.of_map Prod.fst

theorem enumFromIdx_getElem (n : Nat) (l : List α) (i : Nat) (hi : i < l.length)
    (hi' : i < (enumFromIdx n l).length) :
    (enumFromIdx n l)[i] = (n + i, l[i]) := by
  induction l generalizing n i with
  | nil => cases hi
  | cons a as ih =>
    cases i with
    | zero => simp [enumFromIdx]
    | succ j =>
      have hj : j < as.length := by simpa using hi
      have hj' : j < (enumFromIdx (n + 1) as).length := by
        rw [enumFromIdx_length]; exact hj
      show (enumFromIdx (n + 1) as)[j] = _
      rw [ih (n + 1) j hj hj']
      simp
      omega

theorem withIdx_getElem (l : List α) (i : Nat) (hi : i < l.length)
    (hi' : i < (withIdx l).length) : (withIdx l)[i] = (i, l[i]) := by
  have := enumFromIdx_getElem 0 l i hi hi'
  simpa using this

theorem mem_withIdx_iff (l : List α) (p : Nat × α) :
    p ∈ withIdx l ↔ ∃ h : p.1 < l.length, l[p.1] = p.2 := by
  constructor
  · intro hp
    obtain ⟨i, hi, hget⟩ := List.getElem_of_mem hp
    have hil : i < l.length := by rw [← withIdx_length l]; exact hi
    rw [withIdx_getElem l i hil hi] at hget
    cases hget
    exact ⟨hil, rfl⟩
  · rintro ⟨hlt, hget⟩
    have hlt' : p.1 < (withIdx l).length := by rw [withIdx_length]; exact hlt
    have hmem : (withIdx l)[p.1] ∈ withIdx l := List.getElem_mem hlt'
    rw [withIdx_getElem l p.1 hlt hlt', hget] at hmem
    exact hmem

/-! ## Fold-max lemmas (for `getNextOrder`) -/

theorem le_foldl_max (a : Int) (l : List Int) : a ≤ l.foldl max a := by
  induction l generalizing a with
  | nil => exact le_refl a
  | cons x xs ih => exact le_trans (le_max_left a x) (ih (max a x))

theorem mem_le_foldl_max {x : Int} {l : List Int} (hx : x ∈ l) (a : Int) :
    x ≤ l.foldl max a := by
  induction l generalizing a with
  | nil => cases hx
  | cons y ys ih =>
    rcases List.mem_cons.mp hx with rfl | hmem
    · exact le_trans (le_max_right a x) (le_foldl_max _ _)
    · exact ih hmem _

theorem foldl_max_mem (a : Int) (l : List Int) : l.foldl max a = a ∨ l.foldl max a ∈ l := by
  induction l generalizing a with
  | nil => left; rfl
  | cons x xs ih =>
    rcases ih (max a x) with h | h
    · rcases le_total a x with hax | hax
      · right
        rw [List.foldl_cons, h, max_eq_right hax]
        exact List.mem_cons_self x xs
      · left
        rw [List.foldl_cons, h, max_eq_left hax]
    · right
      exact List.mem_cons_of_mem x h

/-- `getNextOrder` unfolded through the stable sort. -/
theorem getNextOrder_eq (s : String) (tasks : List Task) :
    getNextOrder s tasks =
      match getTasksByStatus s tasks with
      | [] => 0
      | t :: ts => (ts.map Task.order).foldl max t.order + 1 := by
  unfold getNextOrder
  cases getTasksByStatus s tasks with
  | nil => rfl
  | cons t ts =>
    show List.foldl (fun m u => max m u.order) t.order ts + 1 =
      List.foldl max t.order (List.map Task.order ts) + 1
    rw [List.foldl_map]

/-- `getNextOrder` in terms of the order list: it is strictly above every
existing order of the partition and, when the partition is non-empty, one
more than one of them (i.e. exactly `max + 1`). -/
theorem getNextOrder_spec (s : String) (tasks : List Task) :
    (getTasksByStatus s tasks = [] → getNextOrder s tasks = 0) ∧
    (∀ u ∈ getTasksByStatus s tasks, u.order < getNextOrder s tasks) ∧
    (getTasksByStatus s tasks ≠ [] →
      getNextOrder s tasks - 1 ∈ ordersOfStatus s tasks) := by
  have heq0 := getNextOrder_eq s tasks
  cases hG : getTasksByStatus s tasks with
  | nil =>
    rw [hG] at heq0
    have heq : getNextOrder s tasks = 0 := heq0
    refine ⟨fun _ => heq, ?_, ?_⟩
    · intro u hu
      cases hu
    · intro hne
      exact absurd rfl hne
  | cons t ts =>
    rw [hG] at heq0
    have heq : getNextOrder s tasks = (ts.map Task.order).foldl max t.order + 1 := heq0
    have horders : ordersOfStatus s tasks = t.order :: ts.map Task.order := by
      unfold ordersOfStatus
      rw [hG]
      rfl
    refine ⟨fun he => absurd he (List.cons_ne_nil t ts), ?_, ?_⟩
    · intro u hu
      rw [heq]
      rcases List.mem_cons.mp hu with rfl | hmem
      · have := le_foldl_max u.order (ts.map Task.order)
        omega
      · have := mem_le_foldl_max (List.mem_map_of_mem Task.order hmem) t.order
        omega
    · intro _
      rw [heq, horders]
      have h11 : (ts.map Task.order).foldl max t.order + 1 - 1 =
          (ts.map Task.order).foldl max t.order := by omega
      rw [h11]
      rcases foldl_max_mem t.order (ts.map Task.order) with h | h
      · rw [h]
        exact List.mem_cons_self _ _
      · exact List.mem_cons_of_mem _ h

/-- The integer range `0, 1, ..., n-1`. -/
theorem mem_castRange_iff (n : Nat) (x : Int) :
    x ∈ (List.range n).map (fun i : Nat => (i : Int)) ↔ ∃ i : Nat, i < n ∧ x = (i : Int) := by
  constructor
  · intro hx
    obtain ⟨i, hi, hx2⟩ := List.mem_map.mp hx
    exact ⟨i, List.mem_range.mp hi, hx2.symm⟩
  · rintro ⟨i, hi, rfl⟩
    exact List.mem_map.mpr ⟨i, List.mem_range.mpr hi, rfl⟩

/-- When a status partition satisfies the contiguity invariant,
`getNextOrder` equals the number of tasks in that partition. -/
theorem getNextOrder_of_contiguous {s : String} {tasks : List Task}
    (h : contiguousOrders s tasks) :
    getNextOrder s tasks = ((tasks.filter (fun t => t.status == s)).length : Int) := by
  unfold contiguousOrders at h
  obtain ⟨h0, hlt, hmem⟩ := getNextOrder_spec s tasks
  by_cases hn : (tasks.filter (fun t => t.status == s)).length = 0
  · rw [hn] at h
    have hordnil : ordersOfStatus s tasks = [] := by
      rw [h]
      rfl
    have hG : getTasksByStatus s tasks = [] := by
      unfold ordersOfStatus at hordnil
      exact List.map_eq_nil_iff.mp hordnil
    rw [h0 hG, hn]
    rfl
  · have hGne : getTasksByStatus s tasks ≠ [] := by
      intro hG
      have hnil : ordersOfStatus s tasks = [] := by
        unfold ordersOfStatus
        rw [hG]
        rfl
      rw [h] at hnil
      apply hn
      have hlen := congrArg List.length hnil
      rw [List.length_map, List.length_range, List.length_nil] at hlen
      exact hlen
    have h1 := hmem hGne
    rw [h, mem_castRange_iff] at h1
    obtain ⟨i, hi, hx⟩ := h1
    have h2 : ((((tasks.filter (fun t => t.status == s)).length - 1 : Nat)) : Int) ∈
        ordersOfStatus s tasks := by
      rw [h, mem_castRange_iff]
      exact ⟨_, by omega, rfl⟩
    unfold ordersOfStatus at h2
    obtain ⟨u, hu, hu2⟩ := List.mem_map.mp h2
    have h3 := hlt u hu
    rw [hu2] at h3
    omega

/-! ## C3 -/

/-- C3 counterexample: on a collection whose single Backlog task has order
`5`, `createTask` assigns order `6` (`max + 1`), not the Backlog count `1`
that the claim states. -/
theorem C3_createTask_order_counterexample :
    (createTask "z" 0 "T" none
        { tasks := [{ id := "q", title := "t", description := none, status := statusBacklog,
                      createdAt := 0, order := 5 }], saveCount := 0 }).1 =
      .ok { id := "z", title := "T", description := none, status := statusBacklog,
            createdAt := 0, order := 6 } ∧
    (([{ id := "q", title := "t", description := none, status := statusBacklog,
         createdAt := 0, order := 5 }] : List Task).filter
        (fun t => t.status == statusBacklog)).length = 1 ∧
    (6 : Int) ≠ (1 : Int) := by
  refine ⟨rfl, by decide, by decide⟩

/-- C3 as amended: a successful `createTask` returns a task with status
Backlog and appends exactly that task; its order is `0` on an empty Backlog
partition and otherwise one more than the maximum existing Backlog order
(strictly above every existing order, and one more than one of them) — which
equals the Backlog count exactly when the Backlog orders satisfy the
contiguity invariant, as in the two-creates-from-empty scenario. -/
theorem C3_createTask_success (newId : String) (now : Int) (title : String)
    (d : Option String) (st : ServiceState) (task : Task) (st' : ServiceState)
    (h : createTask newId now title d st = (.ok task, st')) :
    task.status = statusBacklog ∧
    st'.tasks = st.tasks ++ [task] ∧
    (getTasksByStatus statusBacklog st.tasks = [] → task.order = 0) ∧
    (∀ u ∈ getTasksByStatus statusBacklog st.tasks, u.order < task.order) ∧
    (getTasksByStatus statusBacklog st.tasks ≠ [] →
      task.order - 1 ∈ ordersOfStatus statusBacklog st.tasks) ∧
    (contiguousOrders statusBacklog st.tasks →
      task.order = ((st.tasks.filter (fun t => t.status == statusBacklog)).length : Int)) := by
  unfold createTask at h
  cases hv : validateTaskInput title d with
  | some e => rw [hv] at h; cases h
  | none =>
    rw [hv] at h
    cases h
    obtain ⟨h0, hlt, hmem⟩ := getNextOrder_spec statusBacklog st.tasks
    exact ⟨rfl, rfl, h0, hlt, hmem, fun hc => getNextOrder_of_contiguous hc⟩

/-- Witness for C3: the second create on a collection holding one Backlog
task of order `0` yields order `1` (the Backlog count), per the contiguity
clause of the amended theorem. -/
theorem C3_createTask_success_witness :
    ({ id := "b", title := "Walk dog", description := none, status := statusBacklog,
       createdAt := 1, order := 1 } : Task).order =
      ((([{ id := "a", title := "Buy milk", description := none, status := statusBacklog,
            createdAt := 0, order := 0 }] : List Task).filter
          (fun t => t.status == statusBacklog)).length : Int) :=
  (C3_createTask_success "b" 1 "Walk dog" none
      { tasks := [{ id := "a", title := "Buy milk", description := none,
                    status := statusBacklog, createdAt := 0, order := 0 }], saveCount := 1 }
      _ _ rfl).2.2.2.2.2 (by decide)

/-! ## idxOf lemmas -/

theorem getElem?_idxOf [DecidableEq α] {a : α} {l : List α} (h : a ∈ l) :
    l[idxOf a l]? = some a := by
  induction l with
  | nil => cases h
  | cons b bs ih =>
    by_cases hb : b = a
    · simp [idxOf, hb]
    · have hmem : a ∈ bs := by
        rcases List.mem_cons.mp h with rfl | hm
        · exact absurd rfl hb
        · exact hm
      simp [idxOf, hb, ih hmem]

theorem idxOf_lt_length [DecidableEq α] {a : α} {l : List α} (h : a ∈ l) :
    idxOf a l < l.length := by
  induction l with
  | nil => cases h
  | cons b bs ih =>
    unfold idxOf
    by_cases hb : b = a
    · rw [if_pos hb]
      simp
    · rw [if_neg hb]
      rcases List.mem_cons.mp h with rfl | hmem
      · exact absurd rfl hb
      · simpa using ih hmem

theorem getElem_idxOf [DecidableEq α] {a : α} {l : List α} (hmem : a ∈ l)
    (hlt : idxOf a l < l.length) : l[idxOf a l] = a := by
  have h1 := getElem?_idxOf hmem
  rw [List.getElem?_eq_getElem hlt] at h1
  exact Option.some.inj h1

theorem idxOf_getElem [DecidableEq α] {l : List α} (h : l.Nodup) (n : Nat)
    (hn : n < l.length) : idxOf l[n] l = n := by
  induction l generalizing n with
  | nil => cases hn
  | cons b bs ih =>
    rcases List.nodup_cons.mp h with ⟨hb, hbs⟩
    cases n with
    | zero => simp [idxOf]
    | succ m =>
      have hm : m < bs.length := by simpa using hn
      have hbm : (b :: bs)[m + 1] = bs[m] := rfl
      rw [hbm]
      unfold idxOf
      have hne : b ≠ bs[m] := fun he => hb (he ▸ List.getElem_mem hm)
      rw [if_neg hne, ih hbs m hm]

theorem map_idxOf_self [DecidableEq α] {l : List α} (h : l.Nodup) :
    l.map (fun a => idxOf a l) = List.range l.length := by
  apply List.ext_getElem
  · simp
  · intro n h1 h2
    rw [List.getElem_map, List.getElem_range]
    exact idxOf_getElem h n (by simpa using h1)

theorem castRange_sorted (n : Nat) :
    List.Sorted (fun a b : Int => a ≤ b)
      ((List.range n).map (fun i : Nat => (i : Int))) := by
  rw [List.Sorted, List.pairwise_map]
  exact (List.sorted_le_range n).imp (fun hab => by exact_mod_cast hab)

theorem keys_castRange_of_perm {α : Type _} (key : α → Int) (l : List α)
    (hperm : List.Perm (l.map key)
      ((List.range l.length).map (fun i : Nat => (i : Int)))) :
    (sortByKey key l).map key = (List.range l.length).map (fun i : Nat => (i : Int)) := by
  apply List.eq_of_perm_of_sorted (r := fun a b : Int => a ≤ b)
  · exact ((sortByKey_perm key l).map key).trans hperm
  · rw [List.Sorted, List.pairwise_map]
    exact sortByKey_sorted key l
  · exact castRange_sorted l.length

theorem idxOf_sortByKey_eq_key [DecidableEq α] (key : α → Int) (l : List α)
    (hkeys : (sortByKey key l).map key =
      (List.range l.length).map (fun i : Nat => (i : Int)))
    {a : α} (ha : a ∈ l) :
    ((idxOf a (sortByKey key l) : Nat) : Int) = key a := by
  have hmem : a ∈ sortByKey key l := (sortByKey_perm key l).mem_iff.mpr ha
  have hlt : idxOf a (sortByKey key l) < (sortByKey key l).length := idxOf_lt_length hmem
  have h1 : ((sortByKey key l).map key)[idxOf a (sortByKey key l)]? = some (key a) := by
    rw [List.getElem?_map, getElem?_idxOf hmem]
    rfl
  rw [hkeys] at h1
  have hlen : idxOf a (sortByKey key l) < l.length := by
    have := (sortByKey_perm key l).length_eq
    omega
  have h2 : ((List.range l.length).map (fun i : Nat => (i : Int)))[idxOf a (sortByKey key l)]? =
      some ((idxOf a (sortByKey key l) : Nat) : Int) := by
    rw [List.getElem?_map]
    rw [List.getElem?_range hlen]
    rfl
  rw [h2] at h1
  exact Option.some.inj h1

/-! ## Repair lemmas -/

theorem repairTasks_filter_status (tasks : List Task) (s : String) :
    (repairTasks tasks).filter (fun t => t.status == s) =
      ((withIdx (tasks.filter isSalvageable)).filter (fun q => q.2.status == s)).map
        (fun p => { p.2 with order :=
          ((idxOf p (sortByKey (fun q => (q.2 : Task).order)
              ((withIdx (tasks.filter isSalvageable)).filter
                (fun q => q.2.status == s))) : Nat) : Int) }) := by
  unfold repairTasks
  rw [List.filter_map]
  have hpred : List.filter
      ((fun t => t.status == s) ∘ (fun p : Nat × Task => ({ p.2 with order :=
        ((idxOf p (sortByKey (fun q => (q.2 : Task).order)
            ((withIdx (tasks.filter isSalvageable)).filter
              (fun q => q.2.status == p.2.status))) : Nat) : Int) } : Task)))
      (withIdx (tasks.filter isSalvageable)) =
      List.filter (fun q : Nat × Task => q.2.status == s)
        (withIdx (tasks.filter isSalvageable)) := by
    apply List.filter_congr
    intro p hp
    rfl
  rw [hpred]
  apply List.map_congr_left
  intro p hp
  have hps : p.2.status = s := by
    have := List.of_mem_filter hp
    exact eq_of_beq this
  rw [hps]

theorem repairTasks_orders_perm (tasks : List Task) (s : String) :
    List.Perm
      (((repairTasks tasks).filter (fun t => t.status == s)).map Task.order)
      ((List.range ((repairTasks tasks).filter (fun t => t.status == s)).length).map
        (fun i : Nat => (i : Int))) := by
  rw [repairTasks_filter_status, List.map_map, List.length_map]
  have hPnodup : ((withIdx (tasks.filter isSalvageable)).filter
      (fun q => q.2.status == s)).Nodup :=
    (withIdx_nodup (tasks.filter isSalvageable)).filter _
  generalize hP : (withIdx (tasks.filter isSalvageable)).filter
      (fun q => q.2.status == s) = P at hPnodup ⊢
  have hcomp : (Task.order ∘ (fun p : Nat × Task => ({ p.2 with order :=
      ((idxOf p (sortByKey (fun q => (q.2 : Task).order) P) : Nat) : Int) } : Task))) =
      (fun p : Nat × Task =>
        ((idxOf p (sortByKey (fun q => (q.2 : Task).order) P) : Nat) : Int)) := rfl
  rw [hcomp]
  have hmapcast : (P.map (fun p : Nat × Task =>
      ((idxOf p (sortByKey (fun q => (q.2 : Task).order) P) : Nat) : Int))) =
      (P.map (fun p : Nat × Task =>
        idxOf p (sortByKey (fun q => (q.2 : Task).order) P))).map
          (fun i : Nat => (i : Int)) := by
    rw [List.map_map]
    rfl
  rw [hmapcast]
  apply List.Perm.map
  have hSPperm := sortByKey_perm (fun q : Nat × Task => (q.2 : Task).order) P
  have h1 : List.Perm
      (P.map (fun p => idxOf p (sortByKey (fun q : Nat × Task => (q.2 : Task).order) P)))
      ((sortByKey (fun q : Nat × Task => (q.2 : Task).order) P).map
        (fun p => idxOf p (sortByKey (fun q : Nat × Task => (q.2 : Task).order) P))) :=
    (hSPperm.symm).map _
  have h2 := map_idxOf_self
    (sortByKey_nodup (fun q : Nat × Task => (q.2 : Task).order) hPnodup)
  rw [h2] at h1
  have h3 : (sortByKey (fun q : Nat × Task => (q.2 : Task).order) P).length = P.length :=
    hSPperm.length_eq
  rw [h3] at h1
  exact h1

/-- Order contiguity holds for every status after `repairTasks`. -/
theorem contiguous_repairTasks (tasks : List Task) (s : String) :
    contiguousOrders s (repairTasks tasks) := by
  unfold contiguousOrders ordersOfStatus getTasksByStatus
  apply List.eq_of_perm_of_sorted (r := fun a b : Int => a ≤ b)
  · exact ((sortByKey_perm Task.order _).map Task.order).trans (repairTasks_orders_perm tasks s)
  · rw [List.Sorted, List.pairwise_map]
    exact sortByKey_sorted Task.order _
  · exact castRange_sorted _

/-! ## Contiguity is preserved by appending at the next order -/

theorem contiguous_append_other (tasks : List Task) (s : String) (nt : Task)
    (hstat : nt.status ≠ s) (hco : contiguousOrders s tasks) :
    contiguousOrders s (tasks ++ [nt]) := by
  unfold contiguousOrders ordersOfStatus getTasksByStatus at hco ⊢
  rw [List.filter_append]
  have hsingle : List.filter (fun t => t.status == s) [nt] = [] := by
    simp [List.filter_cons, hstat]
  rw [hsingle, List.append_nil]
  exact hco

theorem contiguous_append_next (tasks : List Task) (s : String) (nt : Task)
    (hstat : nt.status = s) (hord : nt.order = getNextOrder s tasks)
    (hco : contiguousOrders s tasks) :
    contiguousOrders s (tasks ++ [nt]) := by
  have hnext := getNextOrder_of_contiguous hco
  unfold contiguousOrders ordersOfStatus getTasksByStatus at hco ⊢
  rw [List.filter_append]
  have hsingle : List.filter (fun t => t.status == s) [nt] = [nt] := by
    simp [List.filter_cons, hstat]
  rw [hsingle]
  apply List.eq_of_perm_of_sorted (r := fun a b : Int => a ≤ b)
  · have hpart : List.Perm
        ((List.filter (fun t => t.status == s) tasks).map Task.order)
        ((List.range (List.filter (fun t => t.status == s) tasks).length).map
          (fun i : Nat => (i : Int))) := by
      have hp := (sortByKey_perm Task.order
        (List.filter (fun t => t.status == s) tasks)).map Task.order
      rw [hco] at hp
      exact hp.symm
    have h1 := (sortByKey_perm Task.order
      (List.filter (fun t => t.status == s) tasks ++ [nt])).map Task.order
    have h2 : (List.filter (fun t => t.status == s) tasks ++ [nt]).map Task.order =
        (List.filter (fun t => t.status == s) tasks).map Task.order ++ [nt.order] := by
      rw [List.map_append]
      rfl
    rw [h2] at h1
    have h3 : List.Perm
        ((List.filter (fun t => t.status == s) tasks).map Task.order ++ [nt.order])
        (((List.range ((List.filter (fun t => t.status == s) tasks).length)).map
          (fun i : Nat => (i : Int))) ++ [nt.order]) := hpart.append (List.Perm.refl _)
    have h4 : ((List.range ((List.filter (fun t => t.status == s) tasks).length)).map
          (fun i : Nat => (i : Int))) ++ [nt.order] =
        (List.range ((List.filter (fun t => t.status == s) tasks ++ [nt]).length)).map
          (fun i : Nat => (i : Int)) := by
      rw [hord, hnext, List.length_append]
      have hone : List.length [nt] = 1 := rfl
      rw [hone, List.range_succ, List.map_append]
      rfl
    rw [h4] at h3
    exact h1.trans h3
  · rw [List.Sorted, List.pairwise_map]
    exact sortByKey_sorted Task.order _
  · exact castRange_sorted _

/-- A successful `createTask` preserves the contiguity invariant of every
status partition. -/
theorem createTask_preserves_contiguous
    (newId : String) (now : Int) (title : String) (d : Option String)
    (st : ServiceState) (task : Task) (st' : ServiceState) (s : String)
    (h : createTask newId now title d st = (.ok task, st'))
    (hc : contiguousOrders s st.tasks) : contiguousOrders s st'.tasks := by
  unfold createTask at h
  cases hv : validateTaskInput title d with
  | some e => rw [hv] at h; cases h
  | none =>
    rw [hv] at h
    injection h with h1 h2
    injection h1 with h1
    have hstat : task.status = statusBacklog := by rw [← h1]
    have hord2 : task.order = getNextOrder statusBacklog st.tasks := by rw [← h1]
    have hst' : st'.tasks = st.tasks ++ [task] := by
      rw [← h2, ← h1]
      rfl
    rw [hst']
    by_cases hs : task.status = s
    · have hsb : statusBacklog = s := by rw [← hstat, hs]
      apply contiguous_append_next st.tasks s task hs ?_ hc
      rw [hord2, hsb]
    · exact contiguous_append_other st.tasks s task hs hc

/-! ## C1 -/

/-- C1 counterexample: from a two-task Backlog column with orders `0, 1`,
`deleteTask` of the order-`0` task succeeds but leaves the remaining task at
order `1`, so the Backlog orders are `[1]`, not the contiguous run `[0]` —
`deleteTask` performs no compaction. -/
theorem C1_deleteTask_counterexample :
    deleteTask "A"
        { tasks := [{ id := "A", title := "ta", description := none, status := statusBacklog,
                      createdAt := 0, order := 0 },
                    { id := "B", title := "tb", description := none, status := statusBacklog,
                      createdAt := 0, order := 1 }], saveCount := 0 } =
      (true, { tasks := [{ id := "B", title := "tb", description := none,
                           status := statusBacklog, createdAt := 0, order := 1 }],
               saveCount := 1 }) ∧
    ¬ contiguousOrders statusBacklog
        [{ id := "B", title := "tb", description := none, status := statusBacklog,
           createdAt := 0, order := 1 }] := by
  exact ⟨by decide, by decide⟩

/-- C1 as amended: the order-contiguity invariant is established for every
status by `repairTaskIntegrity` from any collection state, and is preserved
by a successful `createTask`; the other listed mutating operations do not in
general maintain it — in particular `deleteTask` performs no compaction and
can leave a gap in the deleted task's partition (see the counterexample). -/
theorem C1_contiguity_amended :
    (∀ (st : ServiceState) (s : String),
      contiguousOrders s ((repairTaskIntegrity st).2.tasks)) ∧
    (∀ newId now title d st task st' s,
      createTask newId now title d st = (.ok task, st') →
      contiguousOrders s st.tasks → contiguousOrders s st'.tasks) :=
  ⟨fun st s => contiguous_repairTasks st.tasks s, createTask_preserves_contiguous⟩

/-- Witness for C1: repairing the gapped one-task state left by the
counterexample's delete yields a contiguous Backlog column, and creating a
task on the empty collection preserves contiguity. -/
theorem C1_contiguity_amended_witness :
    contiguousOrders statusBacklog
      ((repairTaskIntegrity
        { tasks := [{ id := "B", title := "tb", description := none, status := statusBacklog,
                      createdAt := 0, order := 1 }], saveCount := 1 }).2.tasks) ∧
    contiguousOrders statusBacklog
      [{ id := "a", title := "t", description := none, status := statusBacklog,
         createdAt := 0, order := 0 }] :=
  ⟨C1_contiguity_amended.1 _ statusBacklog,
   C1_contiguity_amended.2 "a" 0 "t" none { tasks := [], saveCount := 0 } _
     { tasks := [{ id := "a", title := "t", description := none, status := statusBacklog,
                   createdAt := 0, order := 0 }], saveCount := 1 } statusBacklog rfl
     (by decide)⟩

/-! ## Further position-tagging and index lemmas (for repair idempotence) -/

theorem enumFromIdx_map (n : Nat) (g : α → β) (l : List α) :
    enumFromIdx n (l.map g) = (enumFromIdx n l).map (fun p => (p.1, g p.2)) := by
  induction l generalizing n with
  | nil => rfl
  | cons a as ih => simp [enumFromIdx, ih]

theorem withIdx_map (g : α → β) (l : List α) :
    withIdx (l.map g) = (withIdx l).map (fun p => (p.1, g p.2)) :=
  enumFromIdx_map 0 g l

theorem enumFromIdx_enumFromIdx (n : Nat) (l : List α) :
    enumFromIdx n (enumFromIdx n l) = (enumFromIdx n l).map (fun p => (p.1, p)) := by
  induction l generalizing n with
  | nil => rfl
  | cons a as ih => simp [enumFromIdx, ih]

theorem withIdx_withIdx (l : List α) :
    withIdx (withIdx l) = (withIdx l).map (fun p => (p.1, p)) :=
  enumFromIdx_enumFromIdx 0 l

theorem eq_of_fst_eq_of_mem_withIdx {l : List α} {p q : Nat × α}
    (hp : p ∈ withIdx l) (hq : q ∈ withIdx l) (h : p.1 = q.1) : p = q := by
  obtain ⟨i, x⟩ := p
  obtain ⟨j, y⟩ := q
  simp only at h
  subst h
  rw [mem_withIdx_iff] at hp hq
  obtain ⟨hp1, hp2⟩ := hp
  obtain ⟨hq1, hq2⟩ := hq
  simp only at hp2 hq2
  rw [← hp2, ← hq2]

theorem idxOf_map [DecidableEq α] [DecidableEq β] (g : α → β) {l : List α} {a : α}
    (hinj : ∀ x ∈ l, g x = g a → x = a) :
    idxOf (g a) (l.map g) = idxOf a l := by
  induction l with
  | nil => rfl
  | cons b bs ih =>
    by_cases hb : b = a
    · subst hb
      simp [idxOf]
    · have hgb : ¬ (g b = g a) := fun he => hb (hinj b (List.mem_cons_self b bs) he)
      have ih2 := ih (fun x hx he => hinj x (List.mem_cons_of_mem b hx) he)
      simp [idxOf, hb, hgb, ih2]

theorem insertByKey_key_congr {key1 key2 : α → Int} (a : α) {l : List α}
    (ha : key1 a = key2 a) (hl : ∀ x ∈ l, key1 x = key2 x) :
    insertByKey key1 a l = insertByKey key2 a l := by
  induction l with
  | nil => rfl
  | cons b bs ih =>
    have hb := hl b (List.mem_cons_self b bs)
    unfold insertByKey
    rw [hb, ha]
    by_cases h : key2 b < key2 a
    · rw [if_pos h, if_pos h, ih (fun x hx => hl x (List.mem_cons_of_mem b hx))]
    · rw [if_neg h, if_neg h]

theorem sortByKey_key_congr {key1 key2 : α → Int} {l : List α}
    (h : ∀ x ∈ l, key1 x = key2 x) : sortByKey key1 l = sortByKey key2 l := by
  induction l with
  | nil => rfl
  | cons a as ih =>
    show insertByKey key1 a (sortByKey key1 as) = insertByKey key2 a (sortByKey key2 as)
    rw [ih (fun x hx => h x (List.mem_cons_of_mem a hx))]
    apply insertByKey_key_congr a (h a (List.mem_cons_self a as))
    intro x hx
    exact h x (List.mem_cons_of_mem a ((sortByKey_perm key2 as).mem_iff.mp hx))

theorem idx_map_perm_castRange [DecidableEq α] (key : α → Int) {P : List α}
    (hnodup : P.Nodup) :
    List.Perm (P.map (fun p => ((idxOf p (sortByKey key P) : Nat) : Int)))
      ((List.range P.length).map (fun i : Nat => (i : Int))) := by
  have hmapcast : P.map (fun p => ((idxOf p (sortByKey key P) : Nat) : Int)) =
      (P.map (fun p => idxOf p (sortByKey key P))).map (fun i : Nat => (i : Int)) := by
    rw [List.map_map]
    rfl
  rw [hmapcast]
  apply List.Perm.map
  have hSPperm := sortByKey_perm key P
  have h1 : List.Perm (P.map (fun p => idxOf p (sortByKey key P)))
      ((sortByKey key P).map (fun p => idxOf p (sortByKey key P))) := (hSPperm.symm).map _
  have h2 := map_idxOf_self (sortByKey_nodup key hnodup)
  rw [h2, hSPperm.length_eq] at h1
  exact h1

/-! ## Repair as the identity on already-consistent collections -/

theorem repairTasks_eq_self_of_contiguous {l : List Task}
    (hfil : l.filter isSalvageable = l)
    (hcont : ∀ s, contiguousOrders s l) :
    repairTasks l = l := by
  unfold repairTasks
  rw [hfil]
  have hpoint : ∀ p ∈ withIdx l,
      ({ p.2 with order := ((idxOf p (sortByKey (fun q => (q.2 : Task).order)
          ((withIdx l).filter (fun q => q.2.status == p.2.status))) : Nat) : Int) } : Task) =
      p.2 := by
    intro p hp
    have hpP : p ∈ (withIdx l).filter (fun q => q.2.status == p.2.status) := by
      rw [List.mem_filter]
      exact ⟨hp, by simp⟩
    have hsnd : (sortByKey (fun q => (q.2 : Task).order)
        ((withIdx l).filter (fun q => q.2.status == p.2.status))).map Prod.snd =
        getTasksByStatus p.2.status l := by
      unfold getTasksByStatus
      have h1 : List.filter (fun t => t.status == p.2.status) l =
          ((withIdx l).filter (fun q => q.2.status == p.2.status)).map Prod.snd := by
        conv_lhs => rw [← withIdx_map_snd l]
        rw [List.filter_map]
        rfl
      rw [h1, sortByKey_map]
    have hlenP : ((withIdx l).filter (fun q => q.2.status == p.2.status)).length =
        (List.filter (fun t => t.status == p.2.status) l).length := by
      have hlen := congrArg List.length hsnd
      rw [List.length_map, (sortByKey_perm _ _).length_eq] at hlen
      rw [hlen]
      unfold getTasksByStatus
      rw [(sortByKey_perm _ _).length_eq]
    have hkeys : (sortByKey (fun q => (q.2 : Task).order)
        ((withIdx l).filter (fun q => q.2.status == p.2.status))).map
          (fun q => (q.2 : Task).order) =
        (List.range ((withIdx l).filter
          (fun q => q.2.status == p.2.status)).length).map
            (fun i : Nat => (i : Int)) := by
      have h2 : (sortByKey (fun q => (q.2 : Task).order)
          ((withIdx l).filter (fun q => q.2.status == p.2.status))).map
            (fun q => (q.2 : Task).order) =
          ((sortByKey (fun q => (q.2 : Task).order)
            ((withIdx l).filter (fun q => q.2.status == p.2.status))).map Prod.snd).map
              Task.order := by
        rw [List.map_map]
        rfl
      have h3 := hcont p.2.status
      unfold contiguousOrders ordersOfStatus at h3
      rw [h2, hsnd, h3]
      rw [hlenP]
    have hkey := idxOf_sortByKey_eq_key (fun q => (q.2 : Task).order) _ hkeys hpP
    rw [hkey]
  have hmaps : (withIdx l).map (fun p => ({ p.2 with order := ((idxOf p (sortByKey
      (fun q => (q.2 : Task).order) ((withIdx l).filter
        (fun q => q.2.status == p.2.status))) : Nat) : Int) } : Task)) =
      (withIdx l).map Prod.snd := List.map_congr_left hpoint
  rw [hmaps, withIdx_map_snd]

theorem repairTasks_filter_self (tasks : List Task) :
    (repairTasks tasks).filter isSalvageable = repairTasks tasks := by
  apply List.filter_eq_self.mpr
  intro a ha
  unfold repairTasks at ha
  obtain ⟨p, hp, hpa⟩ := List.mem_map.mp ha
  have hp2 : p.2 ∈ tasks.filter isSalvageable := by
    rw [mem_withIdx_iff] at hp
    obtain ⟨h1, h2⟩ := hp
    rw [← h2]
    exact List.getElem_mem h1
  have hsalv := List.of_mem_filter hp2
  rw [← hpa]
  exact hsalv

/-- `repairTasks` is idempotent: the first pass leaves a salvageable,
contiguous collection, on which the second pass is the identity. -/
theorem repairTasks_idem (tasks : List Task) :
    repairTasks (repairTasks tasks) = repairTasks tasks :=
  repairTasks_eq_self_of_contiguous (repairTasks_filter_self tasks)
    (fun s => contiguous_repairTasks tasks s)

/-! ## Valid collections are fixed points of repair -/

theorem flatMap_nil_mem {f : α → List β} {l : List α} (h : l.flatMap f = [])
    {a : α} (ha : a ∈ l) : f a = [] := by
  induction l with
  | nil => cases ha
  | cons b bs ih =>
    rw [List.flatMap_cons, List.append_eq_nil] at h
    rcases List.mem_cons.mp ha with rfl | hmem
    · exact h.1
    · exact ih h.2 hmem

theorem valid_facts {tasks : List Task}
    (hvalid : (validateTaskIntegrity tasks).isValid = true) :
    (∀ t ∈ tasks, isSalvageable t = true) ∧
    (∀ s ∈ statusList, ∀ p ∈ withIdx (getTasksByStatus s tasks),
      (p.2 : Task).order = (p.1 : Int)) := by
  have herr : (duplicateIdErrors tasks ++ orderErrors tasks) ++ propertyErrors tasks = [] := by
    unfold validateTaskIntegrity at hvalid
    simpa using hvalid
  rw [List.append_eq_nil] at herr
  obtain ⟨hdo, hprop⟩ := herr
  rw [List.append_eq_nil] at hdo
  obtain ⟨hdup, hord⟩ := hdo
  constructor
  · intro t ht
    unfold propertyErrors at hprop
    have hcontrib := flatMap_nil_mem hprop ht
    rw [List.append_eq_nil, List.append_eq_nil, List.append_eq_nil,
      List.append_eq_nil] at hcontrib
    obtain ⟨⟨⟨⟨hA, hB⟩, hC⟩, hD⟩, hE⟩ := hcontrib
    have hid : ¬ (t.id = "") := by
      intro h0
      rw [if_pos h0] at hA
      cases hA
    have htitle : ¬ (t.title = "" ∨ jsTrim t.title = "") := by
      intro h0
      rw [if_pos h0] at hB
      cases hB
    have hstatus : statusList.contains t.status = true := by
      cases hcs : statusList.contains t.status with
      | true => rfl
      | false =>
        rw [hcs] at hE
        simp at hE
    have ht1 : ¬ (t.title = "") := fun h0 => htitle (Or.inl h0)
    have ht2 : ¬ (jsTrim t.title = "") := fun h0 => htitle (Or.inr h0)
    have hmemS : t.status ∈ statusList := by simpa using hstatus
    simp [isSalvageable, hid, ht1, ht2, hstatus, hmemS]
  · intro s hs p hp
    unfold orderErrors at hord
    have h1 := flatMap_nil_mem hord hs
    have h2 := List.filterMap_eq_nil_iff.mp h1 p hp
    by_contra hne
    rw [if_pos hne] at h2
    cases h2

theorem contiguous_of_valid {tasks : List Task}
    (hvalid : (validateTaskIntegrity tasks).isValid = true) (s : String) :
    contiguousOrders s tasks := by
  obtain ⟨hsalv, hords⟩ := valid_facts hvalid
  by_cases hs : s ∈ statusList
  · unfold contiguousOrders ordersOfStatus
    have hlenG : (getTasksByStatus s tasks).length =
        (List.filter (fun t => t.status == s) tasks).length := by
      unfold getTasksByStatus
      exact (sortByKey_perm _ _).length_eq
    apply List.ext_getElem
    · rw [List.length_map, List.length_map, List.length_range, hlenG]
    · intro j h1 h2
      rw [List.getElem_map, List.getElem_map, List.getElem_range]
      have hjG : j < (getTasksByStatus s tasks).length := by
        rw [List.length_map] at h1
        exact h1
      have hmem : ((j, (getTasksByStatus s tasks)[j]) : Nat × Task) ∈
          withIdx (getTasksByStatus s tasks) := by
        rw [mem_withIdx_iff]
        exact ⟨hjG, rfl⟩
      exact hords s hs _ hmem
  · have hempty : List.filter (fun t => t.status == s) tasks = [] := by
      apply List.filter_eq_nil_iff.mpr
      intro t ht hbeq
      have hts : t.status = s := eq_of_beq hbeq
      have hb := hsalv t ht
      unfold isSalvageable at hb
      simp only [Bool.and_eq_true] at hb
      have hmem : t.status ∈ statusList := by simpa using hb.2
      rw [hts] at hmem
      exact hs hmem
    unfold contiguousOrders ordersOfStatus getTasksByStatus
    rw [hempty]
    rfl

theorem repairTasks_eq_self_of_valid {tasks : List Task}
    (hvalid : (validateTaskIntegrity tasks).isValid = true) :
    repairTasks tasks = tasks := by
  apply repairTasks_eq_self_of_contiguous
  · apply List.filter_eq_self.mpr
    intro t ht
    exact (valid_facts hvalid).1 t ht
  · exact contiguous_of_valid hvalid

/-! ## C8 -/

/-- C8 (idempotence of repair): running `repairTaskIntegrity` twice in a row
yields the same collection as running it once, for every collection state;
and on a collection already passing `validateTaskIntegrity`, the validator
reports zero errors after repair (repair is the identity there). -/
theorem C8_repair_idempotent :
    (∀ st : ServiceState,
      ((repairTaskIntegrity (repairTaskIntegrity st).2).2).tasks =
        ((repairTaskIntegrity st).2).tasks) ∧
    (∀ st : ServiceState, (validateTaskIntegrity st.tasks).isValid = true →
      (validateTaskIntegrity ((repairTaskIntegrity st).2).tasks).errors = []) := by
  constructor
  · intro st
    show repairTasks (repairTasks st.tasks) = repairTasks st.tasks
    exact repairTasks_idem st.tasks
  · intro st hvalid
    show (validateTaskIntegrity (repairTasks st.tasks)).errors = []
    rw [repairTasks_eq_self_of_valid hvalid]
    unfold validateTaskIntegrity at hvalid ⊢
    simpa using hvalid

/-- Witness for C8: a concrete already-valid one-task collection validates
with zero errors after repair. -/
theorem C8_repair_idempotent_witness :
    (validateTaskIntegrity
        [{ id := "A", title := "t", description := none, status := statusBacklog,
           createdAt := 0, order := 0 }]).isValid = true ∧
    (validateTaskIntegrity
        ((repairTaskIntegrity
          { tasks :=
              [{ id := "A", title := "t", description := none, status := statusBacklog,
                 createdAt := 0, order := 0 }],
            saveCount := 0 }).2).tasks).errors = [] :=
  ⟨by decide, C8_repair_idempotent.2 _ (by decide)⟩

/-! ## Persistence-write counting -/

theorem updateTask_saveCount {tid : String} {u : TaskUpdates} {st : ServiceState}
    {task : Task} {st' : ServiceState} (h : updateTask tid u st = (.ok task, st')) :
    st'.saveCount = st.saveCount + 1 := by
  unfold updateTask at h
  cases hg : getTask tid st.tasks with
  | none =>
    rw [hg] at h
    cases h
  | some t0 =>
    rw [hg] at h
    cases hv : validateUpdates u with
    | some e =>
      rw [hv] at h
      cases h
    | none =>
      rw [hv] at h
      simp only at h
      cases hg2 : getTask tid
          (st.tasks.map fun t => if t.id == tid then applyUpdates t u else t) with
      | some t1 =>
        rw [hg2] at h
        injection h with h1 h2
        rw [← h2]
        rfl
      | none =>
        rw [hg2] at h
        injection h with h1 h2
        cases h1

theorem batchUpdateTasks_saveCount {upds : List (String × TaskUpdates)}
    {st : ServiceState} {res : List Task} {st' : ServiceState}
    (h : batchUpdateTasks upds st = (.ok res, st')) :
    st'.saveCount = st.saveCount + 1 := by
  unfold batchUpdateTasks at h
  cases hf : upds.find? (fun p => (getTask p.1 st.tasks).isNone) with
  | some q =>
    rw [hf] at h
    cases h
  | none =>
    rw [hf] at h
    cases hv : upds.findSome? (fun p => validateUpdates p.2) with
    | some e =>
      rw [hv] at h
      cases h
    | none =>
      rw [hv] at h
      injection h with h1 h2
      rw [← h2]
      rfl

/-- C7 counterexample: a successful `cleanupOldTasks` run (removes one stale
Done task, leaving another Done task whose order must be fixed) performs two
persistence writes — one from the `updateTask` inside `reorderAllColumns`
and one final save — not exactly one as the claim states. -/
theorem C7_cleanup_write_counterexample :
    cleanupOldTasks 50
        { tasks := [{ id := "o", title := "old", description := none, status := statusDone,
                      createdAt := 0, order := 0 },
                    { id := "n", title := "new", description := none, status := statusDone,
                      createdAt := 100, order := 1 }], saveCount := 0 } =
      (1, { tasks := [{ id := "n", title := "new", description := none, status := statusDone,
                        createdAt := 100, order := 0 }], saveCount := 2 }) ∧
    (2 : Nat) ≠ 0 + 1 := by
  exact ⟨by decide, by decide⟩

/-- C7 as amended: every listed mutating operation other than
`cleanupOldTasks` performs exactly one persistence write when it succeeds —
`createTask`, `updateTask`, successful `deleteTask`, `changeTaskStatus`,
`reorderTask`, `moveTask`, `batchUpdateTasks` (one write regardless of batch
size), successful `handleDragDropOperation`, and `repairTaskIntegrity` —
and the read operations (`getTask`, `getTasksByStatus`,
`validateTaskIntegrity`) leave the state, including the write counter,
untouched.  `cleanupOldTasks` is the exception: its compaction pass calls
`updateTask` (which saves) once per task whose order it fixes, before the
final save (see the counterexample). -/
theorem C7_single_write_per_mutation :
    (∀ newId now title d st task st',
      createTask newId now title d st = (.ok task, st') →
      st'.saveCount = st.saveCount + 1) ∧
    (∀ tid u st task st',
      updateTask tid u st = (.ok task, st') →
      st'.saveCount = st.saveCount + 1) ∧
    (∀ tid st st',
      deleteTask tid st = (true, st') →
      st'.saveCount = st.saveCount + 1) ∧
    (∀ tid newStatus newOrder st task st',
      changeTaskStatus tid newStatus newOrder st = (.ok task, st') →
      st'.saveCount = st.saveCount + 1) ∧
    (∀ tid newOrder st task st',
      reorderTask tid newOrder st = (.ok task, st') →
      st'.saveCount = st.saveCount + 1) ∧
    (∀ tid newStatus newOrder st task st',
      moveTask tid newStatus newOrder st = (.ok task, st') →
      st'.saveCount = st.saveCount + 1) ∧
    (∀ upds st res st',
      batchUpdateTasks upds st = (.ok res, st') →
      st'.saveCount = st.saveCount + 1) ∧
    (∀ op st res st',
      handleDragDropOperation op st = (res, st') → res.success = true →
      st'.saveCount = st.saveCount + 1) ∧
    (∀ st, ((repairTaskIntegrity st).2).saveCount = st.saveCount + 1) ∧
    (∀ tid st, (getTaskOp tid st).2 = st) ∧
    (∀ s st, (getTasksByStatusOp s st).2 = st) ∧
    (∀ st, (validateTaskIntegrityOp st).2 = st) := by
  refine ⟨?_, ?_, ?_, ?_, ?_, ?_, ?_, ?_, fun st => rfl, fun tid st => rfl,
    fun s st => rfl, fun st => rfl⟩
  · intro newId now title d st task st' h
    unfold createTask at h
    cases hv : validateTaskInput title d with
    | some e =>
      rw [hv] at h
      cases h
    | none =>
      rw [hv] at h
      injection h with h1 h2
      rw [← h2]
      rfl
  · intro tid u st task st' h
    exact updateTask_saveCount h
  · intro tid st st' h
    unfold deleteTask at h
    by_cases hlen : (st.tasks.filter (fun t => t.id != tid)).length < st.tasks.length
    · rw [if_pos hlen] at h
      injection h with h1 h2
      rw [← h2]
      rfl
    · rw [if_neg hlen] at h
      injection h with h1 h2
      cases h1
  · intro tid newStatus newOrder st task st' h
    unfold changeTaskStatus at h
    cases hg : getTask tid st.tasks with
    | none =>
      rw [hg] at h
      cases h
    | some t0 =>
      rw [hg] at h
      simp only at h
      have hsc := updateTask_saveCount h
      rw [hsc]
      congr 1
      split
      · rfl
      · rfl
  · intro tid newOrder st task st' h
    unfold reorderTask at h
    cases hg : getTask tid st.tasks with
    | none =>
      rw [hg] at h
      cases h
    | some t0 =>
      rw [hg] at h
      simp only at h
      have hsc := updateTask_saveCount h
      exact hsc
  · intro tid newStatus newOrder st task st' h
    unfold moveTask at h
    cases hg : getTask tid st.tasks with
    | none =>
      rw [hg] at h
      cases h
    | some t0 =>
      rw [hg] at h
      simp only at h
      have hsc := updateTask_saveCount h
      exact hsc
  · intro upds st res st' h
    exact batchUpdateTasks_saveCount h
  · intro op st res st' h hsucc
    unfold handleDragDropOperation at h
    simp only at h
    split at h
    · rename_i l st2 heq
      injection h with h1 h2
      rw [← h2]
      exact batchUpdateTasks_saveCount heq
    · rename_i e st2 heq
      injection h with h1 h2
      rw [← h1] at hsucc
      cases hsucc

/-- Witness for C7: one concrete successful instance of each clause — here,
a create on the empty collection writes exactly once. -/
theorem C7_single_write_witness :
    ({ tasks := [{ id := "a", title := "t", description := none, status := statusBacklog,
                   createdAt := 0, order := 0 }], saveCount := 1 } : ServiceState).saveCount =
      ({ tasks := [], saveCount := 0 } : ServiceState).saveCount + 1 :=
  C7_single_write_per_mutation.1 "a" 0 "t" none { tasks := [], saveCount := 0 }
    { id := "a", title := "t", description := none, status := statusBacklog,
      createdAt := 0, order := 0 }
    { tasks := [{ id := "a", title := "t", description := none, status := statusBacklog,
                  createdAt := 0, order := 0 }], saveCount := 1 } rfl

/-! ## Update-list application as a single map (collections with unique ids) -/

theorem lookup_eq_none_of_not_mem {β : Type _} {l : List (String × β)} {k : String}
    (h : k ∉ l.map Prod.fst) : List.lookup k l = none := by
  induction l with
  | nil => rfl
  | cons q qs ih =>
    obtain ⟨k2, v2⟩ := q
    rw [List.map_cons] at h
    have h1 : k ≠ k2 := fun he => h (by rw [he]; exact List.mem_cons_self _ _)
    have h2 : k ∉ qs.map Prod.fst := fun hm => h (List.mem_cons_of_mem _ hm)
    have hbeq : (k == k2) = false := beq_eq_false_iff_ne.mpr h1
    simp [List.lookup, hbeq, ih h2]

theorem lookup_filterMap_none {α : Type _} {β : Type _} (key : α → String)
    (g : α → Option β) (ps : List α) {k : String} (hk : ∀ p ∈ ps, key p ≠ k) :
    List.lookup k (ps.filterMap (fun p => (g p).map (fun o => (key p, o)))) = none := by
  induction ps with
  | nil => rfl
  | cons q qs ih =>
    have hq := hk q (List.mem_cons_self q qs)
    have htail := ih (fun p hp => hk p (List.mem_cons_of_mem q hp))
    cases hgq : g q with
    | none => simp [List.filterMap_cons, hgq, htail]
    | some o =>
      have hbeq : (k == key q) = false := beq_eq_false_iff_ne.mpr (Ne.symm hq)
      simp [List.filterMap_cons, hgq, List.lookup, hbeq, htail]

theorem lookup_filterMap_self {α : Type _} {β : Type _} (key : α → String)
    (g : α → Option β) (ps : List α) (hnd : (ps.map key).Nodup) {u : α} (hu : u ∈ ps) :
    List.lookup (key u) (ps.filterMap (fun p => (g p).map (fun o => (key p, o)))) = g u := by
  induction ps with
  | nil => cases hu
  | cons q qs ih =>
    rw [List.map_cons, List.nodup_cons] at hnd
    obtain ⟨hq, hqs⟩ := hnd
    rcases List.mem_cons.mp hu with rfl | hmem
    · have hknot : ∀ p ∈ qs, key p ≠ key u := by
        intro p hp he
        exact hq (he ▸ List.mem_map_of_mem key hp)
      cases hgu : g u with
      | none =>
        have hnone := lookup_filterMap_none key g qs hknot
        simp [List.filterMap_cons, hgu, hnone]
      | some o => simp [List.filterMap_cons, hgu, List.lookup]
    · have hne : key u ≠ key q := by
        intro he
        exact hq (he ▸ List.mem_map_of_mem key hmem)
      have hbeq : (key u == key q) = false := beq_eq_false_iff_ne.mpr hne
      have htail := ih hqs hmem
      cases hgq : g q with
      | none => simp [List.filterMap_cons, hgq, htail]
      | some o => simp [List.filterMap_cons, hgq, List.lookup, hbeq, htail]

theorem filterMap_keys_sublist {α : Type _} {β : Type _} (key : α → String)
    (g : α → Option β) (ps : List α) :
    List.Sublist ((ps.filterMap (fun p => (g p).map (fun o => (key p, o)))).map Prod.fst)
      (ps.map key) := by
  induction ps with
  | nil => simp
  | cons q qs ih =>
    cases hgq : g q with
    | none =>
      simp only [List.filterMap_cons, hgq, Option.map_none, List.map_cons]
      exact ih.cons (key q)
    | some o =>
      simp only [List.filterMap_cons, hgq, Option.map_some, List.map_cons]
      exact ih.cons₂ (key q)

theorem applyOrderUpdates_eq_map (upds : List (String × Int)) (tasks : List Task)
    (hnd : (upds.map Prod.fst).Nodup) :
    applyOrderUpdates upds tasks =
      tasks.map (fun t =>
        match upds.lookup t.id with
        | some o => { t with order := o }
        | none => t) := by
  induction upds generalizing tasks with
  | nil =>
    show tasks = _
    have hfn : (fun t : Task =>
        match List.lookup t.id ([] : List (String × Int)) with
        | some o => { t with order := o }
        | none => t) = fun t => t := rfl
    rw [hfn, List.map_id']
  | cons p rest ih =>
    obtain ⟨k, v⟩ := p
    rw [List.map_cons, List.nodup_cons] at hnd
    obtain ⟨hk, hrest⟩ := hnd
    show applyOrderUpdates rest (setOrderById k v tasks) = _
    rw [ih _ hrest]
    unfold setOrderById
    rw [List.map_map]
    apply List.map_congr_left
    intro t ht
    by_cases hkt : t.id = k
    · have hbeq : (t.id == k) = true := beq_iff_eq.mpr hkt
      have hlk : List.lookup t.id rest = none := by
        apply lookup_eq_none_of_not_mem
        rw [hkt]
        exact hk
      simp [Function.comp, hbeq, List.lookup, hlk]
    · have hbeq : (t.id == k) = false := beq_eq_false_iff_ne.mpr hkt
      simp [Function.comp, hbeq, List.lookup]

/-! ## Column snapshots -/

theorem column_ids_nodup (s ex : String) (tasks : List Task)
    (hnd : (tasks.map Task.id).Nodup) :
    (((getTasksByStatus s tasks).filter (fun t => t.id != ex)).map Task.id).Nodup := by
  have h1 : ((tasks.filter (fun t => t.status == s)).map Task.id).Nodup :=
    List.Nodup.sublist ((List.filter_sublist tasks).map Task.id) hnd
  have h2 : ((getTasksByStatus s tasks).map Task.id).Nodup := by
    unfold getTasksByStatus
    exact ((sortByKey_perm Task.order _).map Task.id).nodup_iff.mpr h1
  exact List.Nodup.sublist ((List.filter_sublist _).map Task.id) h2

theorem mem_column_iff {s ex : String} {tasks : List Task} {u : Task} :
    u ∈ (getTasksByStatus s tasks).filter (fun t => t.id != ex) ↔
      u ∈ tasks ∧ u.status = s ∧ u.id ≠ ex := by
  rw [List.mem_filter]
  unfold getTasksByStatus
  rw [(sortByKey_perm Task.order _).mem_iff, List.mem_filter]
  constructor
  · rintro ⟨⟨h1, h2⟩, h3⟩
    exact ⟨h1, eq_of_beq h2, by simpa using h3⟩
  · rintro ⟨h1, h2, h3⟩
    exact ⟨⟨h1, beq_iff_eq.mpr h2⟩, by simpa using h3⟩

/-- `compactTaskOrders` on a collection with unique ids acts as one map over
the collection. -/
theorem compactTaskOrders_eq_map (s ex : String) (tasks : List Task)
    (hnd : (tasks.map Task.id).Nodup) :
    compactTaskOrders s ex tasks = tasks.map (compactMapFn s ex tasks) := by
  unfold compactTaskOrders
  have hfun : (fun p : Nat × Task =>
      if p.2.order = (p.1 : Int) then none else some (p.2.id, (p.1 : Int))) =
      (fun p : Nat × Task =>
        ((if p.2.order = (p.1 : Int) then none else some (p.1 : Int)).map
          (fun o => (p.2.id, o)))) := by
    funext p
    by_cases hc : p.2.order = (p.1 : Int)
    · simp [hc]
    · simp [hc]
  rw [hfun]
  have hkeymap : ((withIdx ((getTasksByStatus s tasks).filter (fun t => t.id != ex))).map
      (fun p : Nat × Task => p.2.id)) =
      ((getTasksByStatus s tasks).filter (fun t => t.id != ex)).map Task.id := by
    have hcomp : (fun p : Nat × Task => p.2.id) = Task.id ∘ Prod.snd := rfl
    rw [hcomp, ← List.map_map, withIdx_map_snd]
  have hkeys : (((withIdx ((getTasksByStatus s tasks).filter (fun t => t.id != ex))).filterMap
      (fun p => ((if p.2.order = (p.1 : Int) then none else some (p.1 : Int)).map
        (fun o => (p.2.id, o))))).map Prod.fst).Nodup := by
    apply List.Nodup.sublist (filterMap_keys_sublist (fun p : Nat × Task => p.2.id) _ _)
    rw [hkeymap]
    exact column_ids_nodup s ex tasks hnd
  rw [applyOrderUpdates_eq_map _ _ hkeys]
  apply List.map_congr_left
  intro u hu
  by_cases hc : u.status = s ∧ u.id ≠ ex
  · have hucol : u ∈ (getTasksByStatus s tasks).filter (fun t => t.id != ex) :=
      mem_column_iff.mpr ⟨hu, hc.1, hc.2⟩
    have hcolnd := column_ids_nodup s ex tasks hnd
    have hlt := idxOf_lt_length hucol
    have hpmem : ((idxOf u ((getTasksByStatus s tasks).filter (fun t => t.id != ex)), u) :
        Nat × Task) ∈ withIdx ((getTasksByStatus s tasks).filter (fun t => t.id != ex)) := by
      rw [mem_withIdx_iff]
      exact ⟨hlt, getElem_idxOf hucol hlt⟩
    have hndk : ((withIdx ((getTasksByStatus s tasks).filter (fun t => t.id != ex))).map
        (fun p : Nat × Task => p.2.id)).Nodup := by
      rw [hkeymap]
      exact hcolnd
    have hlook := lookup_filterMap_self (fun p : Nat × Task => p.2.id)
      (fun p : Nat × Task => if p.2.order = (p.1 : Int) then none else some (p.1 : Int))
      _ hndk hpmem
    simp only at hlook
    rw [hlook]
    by_cases ho : u.order =
        ((idxOf u ((getTasksByStatus s tasks).filter (fun t => t.id != ex)) : Nat) : Int)
    · rw [if_pos ho]
      unfold compactMapFn
      rw [if_pos hc, ← ho]
    · rw [if_neg ho]
      unfold compactMapFn
      rw [if_pos hc]
  · have hnone : List.lookup u.id ((withIdx ((getTasksByStatus s tasks).filter
        (fun t => t.id != ex))).filterMap
          (fun p => ((if p.2.order = (p.1 : Int) then none else some (p.1 : Int)).map
            (fun o => (p.2.id, o))))) = none := by
      apply lookup_filterMap_none
      intro p hp he
      have hpcol : p.2 ∈ (getTasksByStatus s tasks).filter (fun t => t.id != ex) := by
        rw [mem_withIdx_iff] at hp
        obtain ⟨h1, h2⟩ := hp
        rw [← h2]
        exact List.getElem_mem h1
      have hptasks := mem_column_iff.mp hpcol
      have hpu : p.2 = u := List.inj_on_of_nodup_map hnd hptasks.1 hu he
      rw [hpu] at hptasks
      exact hc ⟨hptasks.2.1, hptasks.2.2⟩
    rw [hnone]
    unfold compactMapFn
    rw [if_neg hc]

/-- `reorderTasksInColumn` on a collection with unique ids acts as one map
over the collection. -/
theorem reorderTasksInColumn_eq_map (s : String) (io : Int) (ex : String) (tasks : List Task)
    (hnd : (tasks.map Task.id).Nodup) :
    reorderTasksInColumn s io ex tasks = tasks.map (reorderMapFn s io ex) := by
  unfold reorderTasksInColumn
  have hfun : (fun t : Task => if io ≤ t.order then some (t.id, t.order + 1) else none) =
      (fun t : Task => ((if io ≤ t.order then some (t.order + 1) else none).map
        (fun o => (t.id, o)))) := by
    funext t
    by_cases hc : io ≤ t.order
    · simp [hc]
    · simp [hc]
  rw [hfun]
  have hkeys : ((((getTasksByStatus s tasks).filter (fun t => t.id != ex)).filterMap
      (fun t => ((if io ≤ t.order then some (t.order + 1) else none).map
        (fun o => (t.id, o))))).map Prod.fst).Nodup := by
    apply List.Nodup.sublist (filterMap_keys_sublist Task.id _ _)
    exact column_ids_nodup s ex tasks hnd
  rw [applyOrderUpdates_eq_map _ _ hkeys]
  apply List.map_congr_left
  intro u hu
  by_cases hc : u.status = s ∧ u.id ≠ ex
  · have hucol : u ∈ (getTasksByStatus s tasks).filter (fun t => t.id != ex) :=
      mem_column_iff.mpr ⟨hu, hc.1, hc.2⟩
    have hndcol := column_ids_nodup s ex tasks hnd
    have hlook := lookup_filterMap_self Task.id
      (fun t : Task => if io ≤ t.order then some (t.order + 1) else none) _ hndcol hucol
    simp only at hlook
    rw [hlook]
    by_cases ho : io ≤ u.order
    · rw [if_pos ho]
      unfold reorderMapFn
      rw [if_pos ⟨hc.1, hc.2, ho⟩]
    · rw [if_neg ho]
      unfold reorderMapFn
      rw [if_neg (fun hand => ho hand.2.2)]
  · have hnone : List.lookup u.id (((getTasksByStatus s tasks).filter
        (fun t => t.id != ex)).filterMap
          (fun t => ((if io ≤ t.order then some (t.order + 1) else none).map
            (fun o => (t.id, o))))) = none := by
      apply lookup_filterMap_none
      intro p hp he
      have hptasks := mem_column_iff.mp hp
      have hpu : p = u := List.inj_on_of_nodup_map hnd hptasks.1 hu he
      rw [hpu] at hptasks
      exact hc ⟨hptasks.2.1, hptasks.2.2⟩
    rw [hnone]
    unfold reorderMapFn
    rw [if_neg (fun hand => hc ⟨hand.1, hand.2.1⟩)]

/-! ## Pointwise facts about the map forms -/

theorem compactMapFn_id (s ex : String) (tasks : List Task) (u : Task) :
    (compactMapFn s ex tasks u).id = u.id := by
  unfold compactMapFn
  split <;> rfl

theorem compactMapFn_status (s ex : String) (tasks : List Task) (u : Task) :
    (compactMapFn s ex tasks u).status = u.status := by
  unfold compactMapFn
  split <;> rfl

theorem compactMapFn_pos {s ex : String} {tasks : List Task} {u : Task}
    (h1 : u.status = s) (h2 : u.id ≠ ex) :
    compactMapFn s ex tasks u =
      { u with order := ((idxOf u ((getTasksByStatus s tasks).filter
          (fun t => t.id != ex)) : Nat) : Int) } := by
  unfold compactMapFn
  rw [if_pos ⟨h1, h2⟩]

theorem compactMapFn_of_not {s ex : String} {tasks : List Task} {u : Task}
    (h : ¬(u.status = s ∧ u.id ≠ ex)) : compactMapFn s ex tasks u = u := by
  unfold compactMapFn
  rw [if_neg h]

theorem reorderMapFn_id (s : String) (io : Int) (ex : String) (u : Task) :
    (reorderMapFn s io ex u).id = u.id := by
  unfold reorderMapFn
  split <;> rfl

theorem reorderMapFn_pos {s : String} {io : Int} {ex : String} {u : Task}
    (h1 : u.status = s) (h2 : u.id ≠ ex) (h3 : io ≤ u.order) :
    reorderMapFn s io ex u = { u with order := u.order + 1 } := by
  unfold reorderMapFn
  rw [if_pos ⟨h1, h2, h3⟩]

theorem reorderMapFn_of_not {s : String} {io : Int} {ex : String} {u : Task}
    (h : ¬(u.status = s ∧ u.id ≠ ex ∧ io ≤ u.order)) : reorderMapFn s io ex u = u := by
  unfold reorderMapFn
  rw [if_neg h]

theorem updateMapFn_eq {tid : String} {upd : TaskUpdates} {u : Task}
    (h : u.id = tid) : updateMapFn tid upd u = applyUpdates u upd := by
  unfold updateMapFn
  rw [if_pos (beq_iff_eq.mpr h)]

theorem updateMapFn_of_ne {tid : String} {upd : TaskUpdates} {u : Task}
    (h : u.id ≠ tid) : updateMapFn tid upd u = u := by
  unfold updateMapFn
  rw [if_neg (by simpa using h)]

theorem updateMapFn_id (tid : String) (upd : TaskUpdates) (u : Task) :
    (updateMapFn tid upd u).id = u.id := by
  unfold updateMapFn
  split
  · rfl
  · rfl

/-- Task lookup commutes with an id-preserving map over the collection. -/
theorem getTask_map {tid : String} {tasks : List Task} {f : Task → Task}
    (hf : ∀ u, (f u).id = u.id) :
    getTask tid (tasks.map f) = (getTask tid tasks).map f := by
  unfold getTask
  rw [List.find?_map]
  have hp : ((fun t : Task => t.id == tid) ∘ f) = (fun t : Task => t.id == tid) := by
    funext u
    show ((f u).id == tid) = (u.id == tid)
    rw [hf u]
  rw [hp]

/-- Successful `updateTask` in map form: with the id present and the update
record valid, the collection is mapped pointwise, saved once, and the stored
task with that id is returned. -/
theorem updateTask_ok (tid : String) (upd : TaskUpdates) (st : ServiceState) {t t27 : Task}
    (hg : getTask tid st.tasks = some t)
    (hval : validateUpdates upd = none)
    (hg27 : getTask tid (st.tasks.map (updateMapFn tid upd)) = some t27) :
    updateTask tid upd st =
      (.ok t27, { tasks := st.tasks.map (updateMapFn tid upd),
                  saveCount := st.saveCount + 1 }) := by
  have hg2 : getTask tid (st.tasks.map
      (fun v => if v.id == tid then applyUpdates v upd else v)) = some t27 := hg27
  simp only [updateTask, hg, hval, hg2, saveTasks]
  rfl

/-- **C4**: a cross-column `moveTask` (on a collection with unique task ids,
for a stored task whose status differs from the target) renumbers the
remaining source-partition tasks `0..N-1` in their existing relative
order-sorted sequence, shifts every destination-partition task whose order
is at least `newOrder` up by one, sets the moved task's status and order to
the requested values, and performs one save — exactly the collection
described by `moveTaskSpecTasks`. -/
theorem C4_moveTask_cross_column (tid newStatus : String) (newOrder : Int)
    (st : ServiceState) (t : Task)
    (hnd : (st.tasks.map Task.id).Nodup)
    (hg : getTask tid st.tasks = some t)
    (hs : t.status ≠ newStatus) :
    moveTask tid newStatus newOrder st =
      (.ok { t with status := newStatus, order := newOrder },
       { tasks := moveTaskSpecTasks st.tasks tid newStatus newOrder t,
         saveCount := st.saveCount + 1 }) := by
  have hgf : st.tasks.find? (fun u => u.id == tid) = some t := hg
  have htid : t.id = tid := by
    have hpt := List.find?_some hgf
    exact eq_of_beq hpt
  have htmem : t ∈ st.tasks := List.mem_of_find?_eq_some hgf
  have hstep : moveTask tid newStatus newOrder st =
      updateTask tid { status := some newStatus, order := some newOrder }
        (ServiceState.mk
          (reorderTasksInColumn newStatus newOrder tid (compactTaskOrders t.status tid st.tasks))
          st.saveCount) := by
    simp only [moveTask, hg]
    rw [if_pos hs]
  have hidsf : ∀ u, (compactMapFn t.status tid st.tasks u).id = u.id :=
    fun u => compactMapFn_id t.status tid st.tasks u
  have hidsg : ∀ u, (reorderMapFn newStatus newOrder tid u).id = u.id :=
    fun u => reorderMapFn_id newStatus newOrder tid u
  have hidsh : ∀ u, (updateMapFn tid
      ({ status := some newStatus, order := some newOrder } : TaskUpdates) u).id = u.id :=
    fun u => updateMapFn_id tid _ u
  have hA : compactTaskOrders t.status tid st.tasks =
      st.tasks.map (compactMapFn t.status tid st.tasks) :=
    compactTaskOrders_eq_map t.status tid st.tasks hnd
  have hndA : ((st.tasks.map (compactMapFn t.status tid st.tasks)).map Task.id).Nodup := by
    rw [List.map_map]
    have hco : Task.id ∘ compactMapFn t.status tid st.tasks = Task.id := funext hidsf
    rw [hco]
    exact hnd
  have hB : reorderTasksInColumn newStatus newOrder tid
      (st.tasks.map (compactMapFn t.status tid st.tasks)) =
      (st.tasks.map (compactMapFn t.status tid st.tasks)).map
        (reorderMapFn newStatus newOrder tid) :=
    reorderTasksInColumn_eq_map newStatus newOrder tid _ hndA
  have hg2 : getTask tid ((st.tasks.map (compactMapFn t.status tid st.tasks)).map
      (reorderMapFn newStatus newOrder tid)) = some t := by
    rw [getTask_map hidsg, getTask_map hidsf, hg]
    simp only [Option.map_some']
    rw [compactMapFn_of_not (fun hc => hc.2 htid),
      reorderMapFn_of_not (fun hc => hs hc.1)]
  have hval : validateUpdates { status := some newStatus, order := some newOrder } = none := rfl
  have hup : updateMapFn tid ({ status := some newStatus, order := some newOrder } : TaskUpdates) t =
      { t with status := newStatus, order := newOrder } := by
    rw [updateMapFn_eq htid]
    rfl
  have hg3 : getTask tid (((st.tasks.map (compactMapFn t.status tid st.tasks)).map
      (reorderMapFn newStatus newOrder tid)).map
        (updateMapFn tid ({ status := some newStatus, order := some newOrder } : TaskUpdates))) =
      some { t with status := newStatus, order := newOrder } := by
    rw [getTask_map hidsh, hg2]
    simp only [Option.map_some']
    rw [hup]
  have htasks : ((st.tasks.map (compactMapFn t.status tid st.tasks)).map
      (reorderMapFn newStatus newOrder tid)).map
        (updateMapFn tid ({ status := some newStatus, order := some newOrder } : TaskUpdates)) =
      moveTaskSpecTasks st.tasks tid newStatus newOrder t := by
    rw [List.map_map, List.map_map]
    unfold moveTaskSpecTasks
    apply List.map_congr_left
    intro u hu
    simp only [Function.comp_apply]
    by_cases hid : u.id = tid
    · have hut : u = t := List.inj_on_of_nodup_map hnd hu htmem (by rw [hid, htid])
      subst hut
      rw [compactMapFn_of_not (fun hc => hc.2 htid),
        reorderMapFn_of_not (fun hc => hs hc.1), updateMapFn_eq hid, if_pos hid]
      rfl
    · by_cases hst2 : u.status = t.status
      · have h2 : reorderMapFn newStatus newOrder tid
            (compactMapFn t.status tid st.tasks u) =
            compactMapFn t.status tid st.tasks u := by
          apply reorderMapFn_of_not
          intro hc
          have h1 := hc.1
          rw [compactMapFn_status] at h1
          exact hs (hst2 ▸ h1)
        have h3 : updateMapFn tid
            ({ status := some newStatus, order := some newOrder } : TaskUpdates)
            (compactMapFn t.status tid st.tasks u) =
            compactMapFn t.status tid st.tasks u := by
          apply updateMapFn_of_ne
          rw [compactMapFn_id]
          exact hid
        rw [h2, h3, compactMapFn_pos hst2 hid, if_neg hid, if_pos hst2]
      · have h1 : compactMapFn t.status tid st.tasks u = u :=
          compactMapFn_of_not (fun hc => hst2 hc.1)
        rw [h1]
        by_cases hdest : u.status = newStatus ∧ newOrder ≤ u.order
        · have h3 : updateMapFn tid
              ({ status := some newStatus, order := some newOrder } : TaskUpdates)
              (reorderMapFn newStatus newOrder tid u) =
              reorderMapFn newStatus newOrder tid u := by
            apply updateMapFn_of_ne
            rw [reorderMapFn_id]
            exact hid
          rw [h3, reorderMapFn_pos hdest.1 hid hdest.2, if_neg hid, if_neg hst2, if_pos hdest]
        · have h2 : reorderMapFn newStatus newOrder tid u = u :=
            reorderMapFn_of_not (fun hc => hdest ⟨hc.1, hc.2.2⟩)
          rw [h2, updateMapFn_of_ne hid, if_neg hid, if_neg hst2, if_neg hdest]
  have happ := updateTask_ok tid
    ({ status := some newStatus, order := some newOrder } : TaskUpdates)
    (ServiceState.mk
      ((st.tasks.map (compactMapFn t.status tid st.tasks)).map
        (reorderMapFn newStatus newOrder tid))
      st.saveCount)
    hg2 hval hg3
  rw [hstep, hA, hB, happ]
  exact congrArg (fun l =>
    ((Except.ok { t with status := newStatus, order := newOrder } : Except String Task),
      ServiceState.mk l (st.saveCount + 1))) htasks

/-- Concrete instantiation of `C4_moveTask_cross_column` on the spec's
scenario: Backlog tasks A (order 0) and B (order 1); moving A to In Progress
at order 0 leaves B at Backlog order 0 and A at In Progress order 0. -/
theorem C4_moveTask_cross_column_witness :
    ((([(⟨"A", "A", none, statusBacklog, 0, 0⟩ : Task),
        (⟨"B", "B", none, statusBacklog, 0, 1⟩ : Task)].map Task.id).Nodup) ∧
      getTask "A" [⟨"A", "A", none, statusBacklog, 0, 0⟩, ⟨"B", "B", none, statusBacklog, 0, 1⟩] =
        some ⟨"A", "A", none, statusBacklog, 0, 0⟩ ∧
      (⟨"A", "A", none, statusBacklog, 0, 0⟩ : Task).status ≠ statusInProgress) ∧
    moveTask "A" statusInProgress 0
        (ServiceState.mk
          [⟨"A", "A", none, statusBacklog, 0, 0⟩, ⟨"B", "B", none, statusBacklog, 0, 1⟩] 0) =
      (.ok (⟨"A", "A", none, statusInProgress, 0, 0⟩ : Task),
       ServiceState.mk
         [⟨"A", "A", none, statusInProgress, 0, 0⟩, ⟨"B", "B", none, statusBacklog, 0, 0⟩] 1) := by
  refine ⟨⟨by decide, by decide, by decide⟩, ?_⟩
  have h := C4_moveTask_cross_column "A" statusInProgress 0
    (ServiceState.mk
      [⟨"A", "A", none, statusBacklog, 0, 0⟩, ⟨"B", "B", none, statusBacklog, 0, 1⟩] 0)
    ⟨"A", "A", none, statusBacklog, 0, 0⟩ (by decide) (by decide) (by decide)
  rw [h]
  rfl

end Todo
